import Mathlib

/-!
Witness-table protocol of the generated C outputs (n-arms/hoyle, `cli/target/gen`).

A shallow embedding of the generated C files and proofs about the witness
protocol they implement.

Memory model:

* Addresses are natural numbers, `NULL` is `0`.
* Value buffers (`char _n[8]`, `malloc`ed cells) live in a byte-addressed
  memory `bytes`; `memmove` on them reads all source bytes before writing.
* Witness descriptors and refcounters are typed objects kept in maps of their
  own (`wit` for the four-slot layout, `lwit` for the two-slot layout,
  `counter` for the `unsigned long long` a non-null `extra` points to), so an
  access through one type never changes an object of another type.
* Stack arrays and `malloc` blocks are carved from one allocation frontier
  `next` and are never reused; `live` lists the `malloc` blocks not yet passed
  to `free`.
* `log` records, in program order, every call through a witness slot, every
  `_copy_type` / `_destroy_type` call, every counter access, `malloc`, `free`
  and `exit`.
* `exit(1)` ends the run: the outcome is `exited 1 σ` with the state at the
  call, and nothing after it is executed.
-/

namespace Hoyle

/-- An address; `0` is the null pointer. -/
abbrev Addr := Nat

/-- The null pointer. -/
def NULL : Addr := 0

/-- Code addresses of type `void (*)(void *, void *, void *)`: the functions
the generated programs define (`_move_F64` in the four-slot outputs,
`move_F64` in the two-slot outputs) and any other code address. -/
inductive Fn3 where
  | _move_F64
  | move_F64
  | foreign (code : Nat)
  deriving DecidableEq

/-- Code addresses of type `void (*)(void *, void *)`. -/
inductive Fn2 where
  | _destroy_F64
  | foreign (code : Nat)
  deriving DecidableEq

/-- The four-slot descriptor: `typedef struct _witness { move; copy; destroy; extra; }`. -/
structure _witness where
  move : Fn3
  copy : Fn3
  destroy : Fn2
  extra : Addr
  deriving DecidableEq

/-- The two-slot descriptor of the move-only outputs:
`typedef struct _witness { move; extra; }`. -/
structure _lwitness where
  move : Fn3
  extra : Addr
  deriving DecidableEq

/-- Observable steps of a run, in program order. `t` is the address of the
descriptor whose slot is called. -/
inductive Event where
  | call_move (t : Addr) (f : Fn3) (dest src extra : Addr)
  | call_copy (t : Addr) (f : Fn3) (dest src extra : Addr)
  | call_destroy (t : Addr) (f : Fn2) (p extra : Addr)
  | copy_type (dest src : Addr)
  | destroy_type (src : Addr)
  | counter_read (p : Addr) (v : Nat)
  | counter_write (p : Addr) (v : Nat)
  | free (p : Addr)
  | malloc (size : Nat) (p : Addr)
  | exit (status : Nat)
  deriving DecidableEq

/-- Machine state. -/
structure State where
  bytes : Addr → Nat
  wit : Addr → _witness
  lwit : Addr → _lwitness
  counter : Addr → Nat
  next : Addr
  live : List Addr
  log : List Event

/-- What the programs take from outside their own text: the `<limits.h>`
constant `ULONG_MAX`, and the behaviour of code addresses the programs do not
define (such code acts on value bytes only). -/
structure Env where
  ULONG_MAX : Nat
  foreign3 : Nat → Addr → Addr → Addr → (Addr → Nat) → (Addr → Nat)
  foreign2 : Nat → Addr → Addr → (Addr → Nat) → (Addr → Nat)

/-- Result of running a piece of program: normal return, or `exit(status)`. -/
inductive Outcome (α : Type) where
  | ret (a : α) (σ : State)
  | exited (status : Nat) (σ : State)

/-- A piece of program. -/
def M (α : Type) : Type := State → Outcome α

/-- Return a value, leaving the state alone. -/
def M.pure {α : Type} (a : α) : M α := fun σ => Outcome.ret a σ

/-- Sequencing; nothing runs after `exit`. -/
def M.bind {α β : Type} (x : M α) (f : α → M β) : M β := fun σ =>
  match x σ with
  | Outcome.ret a σ1 => f a σ1
  | Outcome.exited s σ1 => Outcome.exited s σ1

instance : Monad M where
  pure := M.pure
  bind := M.bind

/-- State of an outcome, whichever way the run ended. -/
def Outcome.state {α : Type} : Outcome α → State
  | Outcome.ret _ σ => σ
  | Outcome.exited _ σ => σ

/-- Whether the run ended in `exit`. -/
def Outcome.isExit {α : Type} : Outcome α → Bool
  | Outcome.ret _ _ => false
  | Outcome.exited _ _ => true

/-- Append an event to the log. -/
def emit (e : Event) : M Unit := fun σ =>
  Outcome.ret () { σ with log := σ.log ++ [e] }

/-- Call `exit(status)`. -/
def exit (status : Nat) : M Unit := fun σ =>
  Outcome.exited status { σ with log := σ.log ++ [Event.exit status] }

/-- A stack array `char _n[size]`: fresh storage at the allocation frontier. -/
def alloca (size : Nat) : M Addr := fun σ =>
  Outcome.ret σ.next { σ with next := σ.next + size }

/-- Call `malloc(size)`: a fresh live block. -/
def malloc (size : Nat) : M Addr := fun σ =>
  Outcome.ret σ.next
    { σ with next := σ.next + max size 1,
             live := σ.live ++ [σ.next],
             log := σ.log ++ [Event.malloc size σ.next] }

/-- Call `free(p)`. -/
def free (p : Addr) : M Unit := fun σ =>
  Outcome.ret () { σ with live := σ.live.erase p, log := σ.log ++ [Event.free p] }

/-- Call `memmove(dest, src, n)` on value bytes: every source byte is read from the
state before the call. -/
def memmove (dest src n : Addr) : M Unit := fun σ =>
  Outcome.ret ()
    { σ with bytes := fun a =>
        if dest ≤ a ∧ a < dest + n then σ.bytes (src + (a - dest)) else σ.bytes a }

/-- Call `memmove(dest, src, 32)` between two four-slot descriptors. -/
def memmove_witness (dest src : Addr) : M Unit := fun σ =>
  Outcome.ret () { σ with wit := Function.update σ.wit dest (σ.wit src) }

/-- Call `memmove(dest, src, 24)` between two two-slot descriptors. -/
def memmove_lwitness (dest src : Addr) : M Unit := fun σ =>
  Outcome.ret () { σ with lwit := Function.update σ.lwit dest (σ.lwit src) }

/-- Read the descriptor at `t` (`(_witness *) t`). -/
def load_witness (t : Addr) : M _witness := fun σ => Outcome.ret (σ.wit t) σ

/-- Read the two-slot descriptor at `t`. -/
def load_lwitness (t : Addr) : M _lwitness := fun σ => Outcome.ret (σ.lwit t) σ

/-- Read `*counter`. -/
def read_counter (p : Addr) : M Nat := fun σ =>
  Outcome.ret (σ.counter p) { σ with log := σ.log ++ [Event.counter_read p (σ.counter p)] }

/-- Store `v` to `*counter`. -/
def write_counter (p : Addr) (v : Nat) : M Unit := fun σ =>
  Outcome.ret ()
    { σ with counter := Function.update σ.counter p v,
             log := σ.log ++ [Event.counter_write p v] }

/-- Little-endian bytes of a 64-bit pattern. -/
def byte_of (bits i : Nat) : Nat := (bits / 256 ^ i) % 256

/-- Store `*(double *) p = d`, `bits` being the IEEE-754 binary64 pattern of `d`. -/
def store_double (p : Addr) (bits : Nat) : M Unit := fun σ =>
  Outcome.ret ()
    { σ with bytes := fun a =>
        if p ≤ a ∧ a < p + 8 then byte_of bits (a - p) else σ.bytes a }

/-- Binary64 pattern of `3.0`. -/
def double_3 : Nat := 0x4008000000000000

/-- Binary64 pattern of `4.0`. -/
def double_4 : Nat := 0x4010000000000000

/-- The eight bytes at `p`. -/
def load8 (σ : State) (p : Addr) : List Nat :=
  (List.range 8).map fun i => σ.bytes (p + i)

/-- The eight bytes of a 64-bit pattern, as `store_double` lays them out. -/
def bytes_of_double (bits : Nat) : List Nat :=
  (List.range 8).map fun i => byte_of bits i

/-- Body of `_move_F64` / `move_F64`: `memmove(dest, src, 8)`. -/
def _move_F64 (dest src _extra : Addr) : M Unit :=
  memmove dest src 8

/-- Body of `_destroy_F64`: empty. -/
def _destroy_F64 (_dest _extra : Addr) : M Unit :=
  pure ()

/-- Run the code a three-pointer slot points to. -/
def run3 (E : Env) (f : Fn3) (dest src extra : Addr) : M Unit :=
  match f with
  | Fn3._move_F64 => _move_F64 dest src extra
  | Fn3.move_F64 => _move_F64 dest src extra
  | Fn3.foreign c => fun σ =>
      Outcome.ret () { σ with bytes := E.foreign3 c dest src extra σ.bytes }

/-- Run the code a two-pointer slot points to. -/
def run2 (E : Env) (f : Fn2) (p extra : Addr) : M Unit :=
  match f with
  | Fn2._destroy_F64 => _destroy_F64 p extra
  | Fn2.foreign c => fun σ =>
      Outcome.ret () { σ with bytes := E.foreign2 c p extra σ.bytes }

/-! ## The prelude shared by the four-slot outputs

`chained_poly_id_literal17537204604646114448`, `poly_let6491468459438185266`,
`first17402623724602230126` and `mono_id8314349383099312203` open with the
same text (lines 5 to 53). -/

/-- Call `(((_witness *) t) -> move)(dest, src, ((_witness *) t) -> extra)`. -/
def call_move (E : Env) (t dest src : Addr) : M Unit := do
  let w ← load_witness t
  emit (Event.call_move t w.move dest src w.extra)
  run3 E w.move dest src w.extra

/-- Call `(((_witness *) t) -> copy)(dest, src, ((_witness *) t) -> extra)`. -/
def call_copy (E : Env) (t dest src : Addr) : M Unit := do
  let w ← load_witness t
  emit (Event.call_copy t w.copy dest src w.extra)
  run3 E w.copy dest src w.extra

/-- Call `(((_witness *) t) -> destroy)(p, ((_witness *) t) -> extra)`. -/
def call_destroy (E : Env) (t p : Addr) : M Unit := do
  let w ← load_witness t
  emit (Event.call_destroy t w.destroy p w.extra)
  run2 E w.destroy p w.extra

/-- Store to one member of the descriptor at `p`. -/
def set_witness (p : Addr) (f : _witness → _witness) : M Unit := fun σ =>
  Outcome.ret () { σ with wit := Function.update σ.wit p (f (σ.wit p)) }

/-- Function `F64` of the four-slot outputs. -/
def F64 (_result : Addr) : M Unit := do
  let result := _result
  set_witness result fun w => { w with move := Fn3._move_F64 }
  set_witness result fun w => { w with copy := Fn3._move_F64 }
  set_witness result fun w => { w with destroy := Fn2._destroy_F64 }
  set_witness result fun w => { w with extra := NULL }

/-- Function `_move_type`: `memmove(dest, src, 32)`. -/
def _move_type (dest src : Addr) : M Unit :=
  memmove_witness dest src

/-- Function `_copy_type`. -/
def _copy_type (E : Env) (dest src : Addr) : M Unit := do
  emit (Event.copy_type dest src)
  let typ ← load_witness src
  if typ.extra ≠ NULL then
    let counter := typ.extra
    let c ← read_counter counter
    if c = E.ULONG_MAX then
      exit 1
    else
      write_counter counter ((c + 1) % 2 ^ 64)
  memmove_witness dest src

/-- Function `_destroy_type`. -/
def _destroy_type (src : Addr) : M Unit := do
  emit (Event.destroy_type src)
  let typ ← load_witness src
  if typ.extra ≠ NULL then
    let counter := typ.extra
    let c ← read_counter counter
    if c = 0 then
      free typ.extra
    else
      write_counter counter ((c + 2 ^ 64 - 1) % 2 ^ 64)

/-! ## The prelude shared by the two-slot outputs

`poly_id1860144974839288182`, `chained_poly_id_literal2282925484834942085`,
`mono_id14727136464941321180` and `literal16341888143541274575` open with the
same text (lines 3 to 16). -/

namespace TwoSlot

/-- Function `move_F64` of the two-slot outputs: `memmove(dest, src, 8)`. -/
def move_F64 (dest src _extra : Addr) : M Unit :=
  memmove dest src 8

/-- Store to one member of the two-slot descriptor at `p`. -/
def set_lwitness (p : Addr) (f : _lwitness → _lwitness) : M Unit := fun σ =>
  Outcome.ret () { σ with lwit := Function.update σ.lwit p (f (σ.lwit p)) }

/-- Function `F64` of the two-slot outputs. -/
def F64 (_result : Addr) : M Unit := do
  let result := _result
  set_lwitness result fun w => { w with move := Fn3.move_F64 }
  set_lwitness result fun w => { w with extra := NULL }

/-- Call `(((_witness *) t) -> move)(dest, src, ((_witness *) t) -> extra)` on a
two-slot descriptor. -/
def call_move (E : Env) (t dest src : Addr) : M Unit := do
  let w ← load_lwitness t
  emit (Event.call_move t w.move dest src w.extra)
  run3 E w.move dest src w.extra

end TwoSlot

/-! ## `chained_poly_id_literal17537204604646114448/out.c` -/

namespace ChainedFull

/-- Function `id` (lines 55 to 58). -/
def id (E : Env) (_result x t : Addr) : M Unit := do
  call_move E t _result x
  _destroy_type t

/-- Function `literal` (lines 60 to 64). -/
def literal (_result : Addr) : M Unit := do
  let _0 ← alloca 8
  store_double _0 double_3
  memmove _result _0 8

/-- Function `chained_poly_id_literal` (lines 66 to 88). -/
def chained_poly_id_literal (E : Env) (_result : Addr) : M Unit := do
  let _2 ← alloca 8
  literal _2
  let _3 ← alloca 32
  F64 _3
  let _1 ← alloca 8
  let _5 ← alloca 8
  memmove _5 _2 8
  let _6 ← alloca 32
  _copy_type E _6 _3
  id E _1 _5 _6
  _destroy_type _3
  let _4 ← alloca 32
  F64 _4
  let _0 ← alloca 8
  let _7 ← alloca 8
  memmove _7 _1 8
  let _8 ← alloca 32
  _copy_type E _8 _4
  id E _0 _7 _8
  _destroy_type _4
  memmove _result _0 8

end ChainedFull

/-! ## `poly_let6491468459438185266/out.c` -/

namespace PolyLet

/-- Function `id` (lines 55 to 61). The text reads a member `size` that the struct
declaration does not have; `size` stands for that read. -/
def id (E : Env) (size : _witness → Nat) (_result x t : Addr) : M Unit := do
  let w ← load_witness t
  let y ← malloc (size w)
  call_copy E t y x
  call_destroy E t x
  call_move E t _result y
  _destroy_type t

/-- Function `poly_let` (lines 63 to 76). -/
def poly_let (E : Env) (size : _witness → Nat) (_result : Addr) : M Unit := do
  let _1 ← alloca 8
  store_double _1 double_3
  let _2 ← alloca 32
  F64 _2
  let _0 ← alloca 8
  let _3 ← alloca 8
  memmove _3 _1 8
  let _4 ← alloca 32
  _copy_type E _4 _2
  id E size _0 _3 _4
  _destroy_type _2
  memmove _result _0 8

end PolyLet

/-! ## `first17402623724602230126/out.c` -/

namespace First

/-- Function `first_of` (lines 55 to 60). -/
def first_of (E : Env) (_result x y a b : Addr) : M Unit := do
  call_destroy E b y
  _destroy_type b
  call_move E a _result x
  _destroy_type a

/-- Function `first` (lines 62 to 84). -/
def first (E : Env) (_result : Addr) : M Unit := do
  let _1 ← alloca 8
  store_double _1 double_3
  let _2 ← alloca 8
  store_double _2 double_4
  let _3 ← alloca 32
  F64 _3
  let _4 ← alloca 32
  F64 _4
  let _0 ← alloca 8
  let _5 ← alloca 8
  memmove _5 _1 8
  let _6 ← alloca 8
  memmove _6 _2 8
  let _7 ← alloca 32
  _copy_type E _7 _3
  let _8 ← alloca 32
  _copy_type E _8 _4
  first_of E _0 _5 _6 _7 _8
  _destroy_type _4
  _destroy_type _3
  memmove _result _0 8

end First

/-! ## `poly_id1860144974839288182/out.c` -/

namespace PolyId

/-- Function `id` (lines 18 to 20). -/
def id (E : Env) (_result x t : Addr) : M Unit :=
  TwoSlot.call_move E t _result x

/-- Function `poly_id` (lines 22 to 34). -/
def poly_id (E : Env) (_result : Addr) : M Unit := do
  let _1 ← alloca 8
  store_double _1 double_3
  let _2 ← alloca 24
  TwoSlot.F64 _2
  let _0 ← alloca 8
  let _3 ← alloca 8
  memmove _3 _1 8
  let _4 ← alloca 24
  memmove_lwitness _4 _2
  id E _0 _3 _4
  memmove _result _0 8

end PolyId

/-! ## `chained_poly_id_literal2282925484834942085/out.c` -/

namespace ChainedTwoSlot

/-- Function `id` (lines 18 to 20). -/
def id (E : Env) (_result x t : Addr) : M Unit :=
  TwoSlot.call_move E t _result x

/-- Function `literal` (lines 22 to 26). -/
def literal (_result : Addr) : M Unit := do
  let _0 ← alloca 8
  store_double _0 double_3
  memmove _result _0 8

/-- Function `chained_poly_id_literal` (lines 28 to 48). -/
def chained_poly_id_literal (E : Env) (_result : Addr) : M Unit := do
  let _2 ← alloca 8
  literal _2
  let _3 ← alloca 24
  TwoSlot.F64 _3
  let _1 ← alloca 8
  let _5 ← alloca 8
  memmove _5 _2 8
  let _6 ← alloca 24
  memmove_lwitness _6 _3
  id E _1 _5 _6
  let _4 ← alloca 24
  TwoSlot.F64 _4
  let _0 ← alloca 8
  let _7 ← alloca 8
  memmove _7 _1 8
  let _8 ← alloca 24
  memmove_lwitness _8 _4
  id E _0 _7 _8
  memmove _result _0 8

end ChainedTwoSlot

/-! ## `mono_id14727136464941321180/out.c` (the same two functions close
`mono_id8314349383099312203/out.c`) -/

namespace MonoId

/-- Function `id` (lines 18 to 20): `memmove(_result, x, 8)`. -/
def id (_result x : Addr) : M Unit :=
  memmove _result x 8

/-- Function `mono_id` (lines 22 to 30). -/
def mono_id (_result : Addr) : M Unit := do
  let _1 ← alloca 8
  store_double _1 double_3
  let _0 ← alloca 8
  let _2 ← alloca 8
  memmove _2 _1 8
  id _0 _2
  memmove _result _0 8

end MonoId

/-! ## `literal16341888143541274575/out.c` -/

namespace Literal

/-- Function `literal` (lines 18 to 22). -/
def literal (_result : Addr) : M Unit := do
  let _0 ← alloca 8
  store_double _0 double_3
  memmove _result _0 8

end Literal

/-! ## Concrete inputs -/

/-- An environment for an LP64 target: `ULONG_MAX = 2^64 - 1`; foreign code
leaves the bytes alone. -/
def env_lp64 : Env :=
  { ULONG_MAX := 2 ^ 64 - 1, foreign3 := fun _ _ _ _ m => m, foreign2 := fun _ _ _ m => m }

/-- A state with one refcounted descriptor at address `1` whose payload at
address `7` holds the count `c`, and nothing else. -/
def state_shared (c : Nat) : State :=
  { bytes := fun _ => 0,
    wit := fun a =>
      if a = 1 then ⟨Fn3._move_F64, Fn3._move_F64, Fn2._destroy_F64, 7⟩
      else ⟨Fn3.foreign 0, Fn3.foreign 0, Fn2.foreign 0, NULL⟩,
    lwit := fun _ => ⟨Fn3.foreign 0, NULL⟩,
    counter := fun a => if a = 7 then c else 0,
    next := 100,
    live := [7],
    log := [] }

/-! ## Clients sharing one payload -/

/-- One call of a client on descriptors that share a payload. -/
inductive Op where
  | copy (dest src : Addr)
  | destroy (src : Addr)
  deriving DecidableEq

/-- Run one call. -/
def run_op (E : Env) : Op → M Unit
  | Op.copy dest src => _copy_type E dest src
  | Op.destroy src => _destroy_type src

/-- Run a sequence of calls, in order. -/
def run_ops (E : Env) : List Op → M Unit
  | [] => pure ()
  | op :: ops => do
      run_op E op
      run_ops E ops

/-- The descriptors live after a sequence of calls, `L` being live before:
a copy makes its destination live, a destroy ends its argument. -/
def live_after (L : List Addr) : List Op → List Addr
  | [] => L
  | Op.copy dest _ :: ops => live_after (dest :: L) ops
  | Op.destroy src :: ops => live_after (L.erase src) ops

/-- The exactly-once discipline: every call is on a live descriptor, and a
copy writes to storage that holds no live descriptor. -/
def disciplined (L : List Addr) : List Op → Bool
  | [] => true
  | Op.copy dest src :: ops =>
      decide (src ∈ L) && decide (dest ∉ L) && disciplined (dest :: L) ops
  | Op.destroy src :: ops => decide (src ∈ L) && disciplined (L.erase src) ops

/-- Number of `_copy_type` calls in a sequence. -/
def copies : List Op → Nat
  | [] => 0
  | Op.copy _ _ :: ops => copies ops + 1
  | Op.destroy _ :: ops => copies ops

/-- Number of `_destroy_type` calls in a sequence. -/
def destroys : List Op → Nat
  | [] => 0
  | Op.copy _ _ :: ops => destroys ops
  | Op.destroy _ :: ops => destroys ops + 1

/-- The address an event frees, if it is a `free`. -/
def Event.freed : Event → Option Addr
  | Event.free p => some p
  | _ => none

/-- The addresses passed to `free` in a stretch of log, in order. -/
def frees (evs : List Event) : List Addr :=
  evs.filterMap Event.freed

/-- The live descriptors `L` all point at payload `p`, no two of them are the
same object, and the counter holds their number minus one. -/
def Shares (σ : State) (L : List Addr) (p : Addr) : Prop :=
  (∀ d ∈ L, (σ.wit d).extra = p) ∧ L.Nodup ∧ σ.counter p + 1 = L.length

/-- The descriptor `F64` of the four-slot outputs builds. -/
def F64_witness : _witness :=
  { move := Fn3._move_F64, copy := Fn3._move_F64, destroy := Fn2._destroy_F64, extra := NULL }

/-- The descriptor `F64` of the two-slot outputs builds. -/
def F64_lwitness : _lwitness :=
  { move := Fn3.move_F64, extra := NULL }

/-- Bytes after `memmove(dest, src, 8)`. -/
def moved8 (dest src : Addr) (m : Addr → Nat) : Addr → Nat := fun a =>
  if dest ≤ a ∧ a < dest + 8 then m (src + (a - dest)) else m a

/-- Bytes after `*(double *) p = d`. -/
def stored8 (p bits : Nat) (m : Addr → Nat) : Addr → Nat := fun a =>
  if p ≤ a ∧ a < p + 8 then byte_of bits (a - p) else m a

/-- Events that are calls: through a slot, or of `_copy_type` / `_destroy_type`. -/
def Event.is_call : Event → Bool
  | Event.call_move _ _ _ _ _ => true
  | Event.call_copy _ _ _ _ _ => true
  | Event.call_destroy _ _ _ _ => true
  | Event.copy_type _ _ => true
  | Event.destroy_type _ => true
  | _ => false

/-- A state in which every descriptor cell holds what `F64` builds and byte
`a` holds `a % 256`. -/
def state_F64 : State :=
  { bytes := fun a => a % 256,
    wit := fun _ => F64_witness,
    lwit := fun _ => F64_lwitness,
    counter := fun _ => 0,
    next := 100,
    live := [],
    log := [] }

/-- Whether an event is a use of the descriptor stored at `d`: a call through
one of its slots, or a `_copy_type` / `_destroy_type` call that names it. -/
def Event.uses (d : Addr) : Event → Bool
  | Event.call_move t _ _ _ _ => decide (t = d)
  | Event.call_copy t _ _ _ _ => decide (t = d)
  | Event.call_destroy t _ _ _ => decide (t = d)
  | Event.copy_type dest src => decide (dest = d) || decide (src = d)
  | Event.destroy_type src => decide (src = d)
  | _ => false

/-- Whether some event after the first `_destroy_type(d)` uses `d`. -/
def used_after_destroy (d : Addr) : List Event → Bool
  | [] => false
  | e :: rest =>
      if e = Event.destroy_type d then rest.any (Event.uses d)
      else used_after_destroy d rest

/-- Every call in the sequence is on one of the descriptors `S` or on the
destination of an earlier copy in the sequence. -/
def sources_in (S : List Addr) : List Op → Bool
  | [] => true
  | Op.copy dest src :: ops => decide (src ∈ S) && sources_in (dest :: S) ops
  | Op.destroy src :: ops => decide (src ∈ S) && sources_in S ops

/-- Events that only record a `_copy_type` or `_destroy_type` call: not a
counter access, not a `free`, not an `exit`. -/
def Event.is_type_call : Event → Bool
  | Event.copy_type _ _ => true
  | Event.destroy_type _ => true
  | _ => false

/-- The descriptors `S` together with the destination of every copy in the
sequence. -/
def produced (S : List Addr) : List Op → List Addr
  | [] => S
  | Op.copy dest _ :: ops => produced (dest :: S) ops
  | Op.destroy _ :: ops => produced S ops

/-- Whether an event accesses the payload at `p`: reads or writes its counter,
or passes it to `free`. -/
def Event.accesses (p : Addr) : Event → Bool
  | Event.counter_read q _ => decide (q = p)
  | Event.counter_write q _ => decide (q = p)
  | Event.free q => decide (q = p)
  | _ => false

/-- Whether some event after the first `free(p)` accesses `p`. -/
def used_after_free (p : Addr) : List Event → Bool
  | [] => false
  | e :: rest =>
      if e = Event.free p then rest.any (Event.accesses p)
      else used_after_free p rest

/-- Two states hold the same memory (value bytes, descriptors, counters, live
blocks, allocation frontier) and the same blocks have been passed to `free`,
in the same order. The record of calls and reads is not compared. -/
def same_effect (σ1 σ2 : State) : Prop :=
  σ1.bytes = σ2.bytes ∧ σ1.wit = σ2.wit ∧ σ1.lwit = σ2.lwit ∧
  σ1.counter = σ2.counter ∧ σ1.live = σ2.live ∧ σ1.next = σ2.next ∧
  frees σ1.log = frees σ2.log

/-- Two calls `_destroy_type(d); _destroy_type(d)` in a row. -/
def destroy_twice (d : Addr) : M Unit := do
  _destroy_type d
  _destroy_type d

/-- The descriptor an event passes to `_destroy_type`, if it is such a call. -/
def Event.destroyed : Event → Option Addr
  | Event.destroy_type src => some src
  | _ => none

/-- The descriptors passed to `_destroy_type` in a stretch of log, in order. -/
def destroyed (evs : List Event) : List Addr :=
  evs.filterMap Event.destroyed

/-- Whether an event consumes the value buffer `buf`: a call of a `move` slot
with `buf` as source, or of a `destroy` slot on `buf`. -/
def Event.consumes (buf : Addr) : Event → Bool
  | Event.call_move _ _ _ src _ => decide (src = buf)
  | Event.call_destroy _ _ p _ => decide (p = buf)
  | _ => false

/-- The pattern of every generated caller of the owning `id`
(`chained_poly_id_literal` lines 75 to 77 and 84 to 86, `poly_let` lines
72 to 74): `_copy_type(d, s); id(r, x, d); _destroy_type(s);`. -/
def call_site (E : Env) (d s r x : Addr) : M Unit := do
  _copy_type E d s
  ChainedFull.id E r x d
  _destroy_type s

/-! ## Unfolding lemmas -/

theorem bind_apply {α β : Type} (x : M α) (f : α → M β) (σ : State) :
    (x >>= f) σ = match x σ with
      | Outcome.ret a σ1 => f a σ1
      | Outcome.exited s σ1 => Outcome.exited s σ1 := rfl

theorem pure_apply {α : Type} (a : α) (σ : State) : (pure a : M α) σ = Outcome.ret a σ := rfl

theorem _copy_type_eq (E : Env) (dest src : Addr) (σ : State) :
    _copy_type E dest src σ =
      if (σ.wit src).extra = NULL then
        Outcome.ret () { σ with wit := Function.update σ.wit dest (σ.wit src),
                                log := σ.log ++ [Event.copy_type dest src] }
      else if σ.counter (σ.wit src).extra = E.ULONG_MAX then
        Outcome.exited 1 { σ with log := σ.log ++ [Event.copy_type dest src,
            Event.counter_read (σ.wit src).extra (σ.counter (σ.wit src).extra), Event.exit 1] }
      else
        Outcome.ret () { σ with
          wit := Function.update σ.wit dest (σ.wit src),
          counter := Function.update σ.counter (σ.wit src).extra
            ((σ.counter (σ.wit src).extra + 1) % 2 ^ 64),
          log := σ.log ++ [Event.copy_type dest src,
            Event.counter_read (σ.wit src).extra (σ.counter (σ.wit src).extra),
            Event.counter_write (σ.wit src).extra
              ((σ.counter (σ.wit src).extra + 1) % 2 ^ 64)] } := by
  by_cases h1 : (σ.wit src).extra = NULL
  · simp [_copy_type, bind_apply, pure_apply, emit, load_witness, memmove_witness, h1]
  · by_cases h2 : σ.counter (σ.wit src).extra = E.ULONG_MAX
    · simp [_copy_type, bind_apply, emit, load_witness, h1, h2, read_counter, exit]
    · simp [_copy_type, bind_apply, emit, load_witness, memmove_witness, h1, h2,
        read_counter, write_counter]

theorem _destroy_type_eq (src : Addr) (σ : State) :
    _destroy_type src σ =
      if (σ.wit src).extra = NULL then
        Outcome.ret () { σ with log := σ.log ++ [Event.destroy_type src] }
      else if σ.counter (σ.wit src).extra = 0 then
        Outcome.ret () { σ with
          live := σ.live.erase (σ.wit src).extra,
          log := σ.log ++ [Event.destroy_type src,
            Event.counter_read (σ.wit src).extra (σ.counter (σ.wit src).extra),
            Event.free (σ.wit src).extra] }
      else
        Outcome.ret () { σ with
          counter := Function.update σ.counter (σ.wit src).extra
            ((σ.counter (σ.wit src).extra + 2 ^ 64 - 1) % 2 ^ 64),
          log := σ.log ++ [Event.destroy_type src,
            Event.counter_read (σ.wit src).extra (σ.counter (σ.wit src).extra),
            Event.counter_write (σ.wit src).extra
              ((σ.counter (σ.wit src).extra + 2 ^ 64 - 1) % 2 ^ 64)] } := by
  by_cases h1 : (σ.wit src).extra = NULL
  · simp [_destroy_type, bind_apply, emit, load_witness, h1, pure_apply]
  · by_cases h2 : σ.counter (σ.wit src).extra = 0
    · simp [_destroy_type, bind_apply, emit, load_witness, h1, h2, read_counter, free]
    · simp [_destroy_type, bind_apply, emit, load_witness, h1, h2, read_counter, write_counter]

/-! ## Claims -/

/-- C1: `_copy_type(dest, src)` leaves `dest` a verbatim copy of `src` and
`src` as it was whenever it returns; with a null `extra` it returns, touches no
counter (the log gains the call and nothing else); with a non-null `extra`
whose counter holds `n` below the maximum it returns with the counter at
exactly `n + 1`. -/
theorem copy_type_verbatim (E : Env) (dest src : Addr) (σ : State) :
    (∀ σ1, _copy_type E dest src σ = Outcome.ret () σ1 →
        σ1.wit dest = σ.wit src ∧ σ1.wit src = σ.wit src) ∧
    ((σ.wit src).extra = NULL →
        ∃ σ1, _copy_type E dest src σ = Outcome.ret () σ1 ∧
          σ1.wit dest = σ.wit src ∧ σ1.wit src = σ.wit src ∧
          σ1.counter = σ.counter ∧
          σ1.log = σ.log ++ [Event.copy_type dest src]) ∧
    (∀ n, (σ.wit src).extra ≠ NULL → σ.counter (σ.wit src).extra = n →
        n < E.ULONG_MAX → E.ULONG_MAX < 2 ^ 64 →
        ∃ σ1, _copy_type E dest src σ = Outcome.ret () σ1 ∧
          σ1.wit dest = σ.wit src ∧ σ1.wit src = σ.wit src ∧
          σ1.counter (σ.wit src).extra = n + 1) := by
  have hsrc : Function.update σ.wit dest (σ.wit src) src = σ.wit src := by
    by_cases h : src = dest
    · subst h; simp
    · simp [Function.update_noteq h]
  refine ⟨?_, ?_, ?_⟩
  · intro σ1 h
    rw [_copy_type_eq] at h
    split at h
    · cases h; exact ⟨by simp, hsrc⟩
    · split at h
      · cases h
      · cases h; exact ⟨by simp, hsrc⟩
  · intro h0
    rw [_copy_type_eq, if_pos h0]
    exact ⟨_, rfl, by simp, hsrc, rfl, rfl⟩
  · intro n h0 hn hlt hU
    have hne : σ.counter (σ.wit src).extra ≠ E.ULONG_MAX := by omega
    rw [_copy_type_eq, if_neg h0, if_neg hne]
    refine ⟨_, rfl, by simp, hsrc, ?_⟩
    simp only [Function.update_same]
    rw [hn]
    exact Nat.mod_eq_of_lt (by omega)

/-- Witness of C1: a descriptor whose counter holds 5 on an LP64 target. -/
theorem copy_type_verbatim_witness :
    ((state_shared 5).wit 1).extra ≠ NULL ∧
    (state_shared 5).counter ((state_shared 5).wit 1).extra = 5 ∧
    5 < env_lp64.ULONG_MAX ∧ env_lp64.ULONG_MAX < 2 ^ 64 ∧
    ∃ σ1, _copy_type env_lp64 2 1 (state_shared 5) = Outcome.ret () σ1 ∧
      σ1.wit 2 = (state_shared 5).wit 1 ∧ σ1.wit 1 = (state_shared 5).wit 1 ∧
      σ1.counter ((state_shared 5).wit 1).extra = 5 + 1 :=
  ⟨by decide, by decide, by decide, by decide,
    (copy_type_verbatim env_lp64 2 1 (state_shared 5)).2.2 5
      (by decide) (by decide) (by decide) (by decide)⟩

/-- C2: on a target whose `ULONG_MAX` is `2^64 - 1` and with 64-bit counter
values, `_copy_type` takes the `exit` branch exactly when `extra` is non-null
and the counter holds `2^64 - 1`; in that case no counter and no descriptor is
modified (the log gains the call, the read and the exit); and a call that
returns with a non-null `extra` leaves the counter at `n + 1`, not reduced
modulo `2^64`. -/
theorem copy_type_exit_iff (E : Env) (dest src : Addr) (σ : State)
    (hU : E.ULONG_MAX = 2 ^ 64 - 1) (hc : ∀ p, σ.counter p < 2 ^ 64) :
    ((_copy_type E dest src σ).isExit = true ↔
        ((σ.wit src).extra ≠ NULL ∧ σ.counter (σ.wit src).extra = 2 ^ 64 - 1)) ∧
    ((_copy_type E dest src σ).isExit = true →
        (_copy_type E dest src σ).state.counter = σ.counter ∧
        (_copy_type E dest src σ).state.wit = σ.wit ∧
        (_copy_type E dest src σ).state.log =
          σ.log ++ [Event.copy_type dest src,
            Event.counter_read (σ.wit src).extra (2 ^ 64 - 1), Event.exit 1]) ∧
    ((_copy_type E dest src σ).isExit = false → (σ.wit src).extra ≠ NULL →
        (_copy_type E dest src σ).state.counter (σ.wit src).extra =
          σ.counter (σ.wit src).extra + 1) := by
  rw [_copy_type_eq]
  by_cases h0 : (σ.wit src).extra = NULL
  · simp [h0, Outcome.isExit]
  · by_cases h1 : σ.counter (σ.wit src).extra = E.ULONG_MAX
    · have h2 : σ.counter (σ.wit src).extra = 2 ^ 64 - 1 := by rw [h1, hU]
      simp [h0, h1, hU, Outcome.isExit, Outcome.state]
    · have h2 : σ.counter (σ.wit src).extra ≠ 2 ^ 64 - 1 := by rw [← hU]; exact h1
      have h3 := hc (σ.wit src).extra
      have h4 : (σ.counter (σ.wit src).extra + 1) % 2 ^ 64 =
          σ.counter (σ.wit src).extra + 1 := Nat.mod_eq_of_lt (by omega)
      simp [h0, h1, h2, Outcome.isExit, Outcome.state, h4]
      omega

/-- Witness of C2: the counter at `2^64 - 1` on an LP64 target. -/
theorem copy_type_exit_iff_witness :
    env_lp64.ULONG_MAX = 2 ^ 64 - 1 ∧
    (∀ p, (state_shared (2 ^ 64 - 1)).counter p < 2 ^ 64) ∧
    (_copy_type env_lp64 2 1 (state_shared (2 ^ 64 - 1))).isExit = true ∧
    (_copy_type env_lp64 2 1 (state_shared (2 ^ 64 - 1))).state.counter =
      (state_shared (2 ^ 64 - 1)).counter :=
  have hc : ∀ p, (state_shared (2 ^ 64 - 1)).counter p < 2 ^ 64 := by
    intro p
    show (if p = 7 then 2 ^ 64 - 1 else 0) < 2 ^ 64
    split <;> decide
  have h := copy_type_exit_iff env_lp64 2 1 (state_shared (2 ^ 64 - 1)) rfl hc
  ⟨rfl, hc, h.1.2 ⟨by decide, by decide⟩, (h.2.1 (h.1.2 ⟨by decide, by decide⟩)).1⟩

/-- On any target, `_copy_type` exits exactly when `extra` is non-null and the
counter equals `ULONG_MAX`, the constant the source compares against. -/
theorem copy_type_isExit (E : Env) (dest src : Addr) (σ : State) :
    (_copy_type E dest src σ).isExit = true ↔
      ((σ.wit src).extra ≠ NULL ∧ σ.counter (σ.wit src).extra = E.ULONG_MAX) := by
  rw [_copy_type_eq]
  by_cases h0 : (σ.wit src).extra = NULL
  · simp [h0, Outcome.isExit]
  · by_cases h1 : σ.counter (σ.wit src).extra = E.ULONG_MAX
    · simp [h0, h1, Outcome.isExit]
    · simp [h0, h1, Outcome.isExit]

/-- C3: `_destroy_type(d)` always returns and never modifies a descriptor;
with a null `extra` it does nothing (the log gains the call only); with a
non-null `extra` and the counter at 0 it frees the payload and writes no
counter; with the counter at `n > 0` it stores `n - 1` and frees nothing. -/
theorem destroy_type_cases (src : Addr) (σ : State) :
    (∃ σ1, _destroy_type src σ = Outcome.ret () σ1 ∧ σ1.wit = σ.wit) ∧
    ((σ.wit src).extra = NULL →
        _destroy_type src σ =
          Outcome.ret () { σ with log := σ.log ++ [Event.destroy_type src] }) ∧
    ((σ.wit src).extra ≠ NULL → σ.counter (σ.wit src).extra = 0 →
        _destroy_type src σ =
          Outcome.ret () { σ with
            live := σ.live.erase (σ.wit src).extra,
            log := σ.log ++ [Event.destroy_type src,
              Event.counter_read (σ.wit src).extra 0,
              Event.free (σ.wit src).extra] }) ∧
    (∀ n, (σ.wit src).extra ≠ NULL → σ.counter (σ.wit src).extra = n →
        0 < n → n < 2 ^ 64 →
        _destroy_type src σ =
          Outcome.ret () { σ with
            counter := Function.update σ.counter (σ.wit src).extra (n - 1),
            log := σ.log ++ [Event.destroy_type src,
              Event.counter_read (σ.wit src).extra n,
              Event.counter_write (σ.wit src).extra (n - 1)] }) := by
  refine ⟨?_, ?_, ?_, ?_⟩
  · rw [_destroy_type_eq]
    split
    · exact ⟨_, rfl, rfl⟩
    · split
      · exact ⟨_, rfl, rfl⟩
      · exact ⟨_, rfl, rfl⟩
  · intro h0
    rw [_destroy_type_eq, if_pos h0]
  · intro h0 h1
    rw [_destroy_type_eq, if_neg h0, if_pos h1, h1]
  · intro n h0 h1 hpos hlt
    have hne : σ.counter (σ.wit src).extra ≠ 0 := by omega
    have hm : (n + 2 ^ 64 - 1) % 2 ^ 64 = n - 1 := by
      have : n + 2 ^ 64 - 1 = (n - 1) + 2 ^ 64 := by omega
      rw [this, Nat.add_mod_right]
      exact Nat.mod_eq_of_lt (by omega)
    rw [_destroy_type_eq, if_neg h0, if_neg hne, h1, hm]

/-- Witness of C3: the counter at 3 is decremented to 2, nothing is freed. -/
theorem destroy_type_cases_witness :
    ((state_shared 3).wit 1).extra ≠ NULL ∧
    (state_shared 3).counter ((state_shared 3).wit 1).extra = 3 ∧
    _destroy_type 1 (state_shared 3) =
      Outcome.ret () { state_shared 3 with
        counter := Function.update (state_shared 3).counter ((state_shared 3).wit 1).extra (3 - 1),
        log := (state_shared 3).log ++ [Event.destroy_type 1,
          Event.counter_read ((state_shared 3).wit 1).extra 3,
          Event.counter_write ((state_shared 3).wit 1).extra (3 - 1)] } :=
  ⟨by decide, by decide,
    (destroy_type_cases 1 (state_shared 3)).2.2.2 3 (by decide) (by decide)
      (by decide) (by decide)⟩

/-! ### Refcount balance -/

theorem frees_append (a b : List Event) : frees (a ++ b) = frees a ++ frees b := by
  simp [frees, List.filterMap_append]

theorem disciplined_nil_left (ops : List Op) (h : disciplined [] ops = true) : ops = [] := by
  cases ops with
  | nil => rfl
  | cons op rest =>
    cases op with
    | copy dest src => simp [disciplined] at h
    | destroy src => simp [disciplined] at h

theorem run_ops_append (E : Env) (pre suf : List Op) (σ σ1 : State)
    (h : run_ops E pre σ = Outcome.ret () σ1) :
    run_ops E (pre ++ suf) σ = run_ops E suf σ1 := by
  induction pre generalizing σ with
  | nil =>
    simp only [run_ops, pure_apply] at h
    cases h
    rfl
  | cons op rest ih =>
    simp only [run_ops, bind_apply, List.cons_append] at h ⊢
    cases hop : run_op E op σ with
    | ret a σ2 =>
      rw [hop] at h
      simp only [hop]
      exact ih σ2 h
    | exited s σ2 =>
      rw [hop] at h
      cases h

/-- A copy of a live descriptor whose counter is below `ULONG_MAX`. -/
theorem copy_step (E : Env) (σ : State) (L : List Addr) (p dest src : Addr)
    (hS : Shares σ L p) (hp : p ≠ NULL) (hsrc : src ∈ L) (hdest : dest ∉ L)
    (hlt : σ.counter p < E.ULONG_MAX) (hU : E.ULONG_MAX < 2 ^ 64) :
    ∃ σ1, _copy_type E dest src σ = Outcome.ret () σ1 ∧ Shares σ1 (dest :: L) p ∧
      σ1.counter p = σ.counter p + 1 ∧
      σ1.log = σ.log ++ [Event.copy_type dest src, Event.counter_read p (σ.counter p),
        Event.counter_write p (σ.counter p + 1)] := by
  obtain ⟨hext, hnd, hlen⟩ := hS
  have he : (σ.wit src).extra = p := hext src hsrc
  have h0 : (σ.wit src).extra ≠ NULL := by rw [he]; exact hp
  have hne : σ.counter (σ.wit src).extra ≠ E.ULONG_MAX := by rw [he]; omega
  have hm : (σ.counter p + 1) % 2 ^ 64 = σ.counter p + 1 := Nat.mod_eq_of_lt (by omega)
  rw [_copy_type_eq, if_neg h0, if_neg hne, he, hm]
  refine ⟨_, rfl, ⟨?_, ?_, ?_⟩, by simp, rfl⟩
  · intro d hd
    show (Function.update σ.wit dest (σ.wit src) d).extra = p
    by_cases hdd : d = dest
    · subst hdd; simpa using he
    · rw [Function.update_noteq hdd]
      rcases List.mem_cons.mp hd with h | h
      · exact absurd h hdd
      · exact hext d h
  · exact List.nodup_cons.mpr ⟨hdest, hnd⟩
  · show Function.update σ.counter p (σ.counter p + 1) p + 1 = (dest :: L).length
    simp [hlen]

/-- A destroy of a live descriptor while another one is live. -/
theorem destroy_step (σ : State) (L : List Addr) (p src : Addr)
    (hS : Shares σ L p) (hp : p ≠ NULL) (hsrc : src ∈ L) (h2 : 2 ≤ L.length)
    (hlt : σ.counter p < 2 ^ 64) :
    ∃ σ1, _destroy_type src σ = Outcome.ret () σ1 ∧ Shares σ1 (L.erase src) p ∧
      σ1.log = σ.log ++ [Event.destroy_type src, Event.counter_read p (σ.counter p),
        Event.counter_write p (σ.counter p - 1)] := by
  obtain ⟨hext, hnd, hlen⟩ := hS
  have he : (σ.wit src).extra = p := hext src hsrc
  have h0 : (σ.wit src).extra ≠ NULL := by rw [he]; exact hp
  have hne : σ.counter (σ.wit src).extra ≠ 0 := by rw [he]; omega
  have hm : (σ.counter p + 2 ^ 64 - 1) % 2 ^ 64 = σ.counter p - 1 := by
    have : σ.counter p + 2 ^ 64 - 1 = (σ.counter p - 1) + 2 ^ 64 := by omega
    rw [this, Nat.add_mod_right]
    exact Nat.mod_eq_of_lt (by omega)
  rw [_destroy_type_eq, if_neg h0, if_neg hne, he, hm]
  refine ⟨_, rfl, ⟨?_, ?_, ?_⟩, rfl⟩
  · intro d hd
    exact hext d (List.mem_of_mem_erase hd)
  · exact hnd.erase src
  · show Function.update σ.counter p (σ.counter p - 1) p + 1 = (L.erase src).length
    rw [List.length_erase_of_mem hsrc]
    simp
    omega

/-- The destroy of the last live descriptor. -/
theorem destroy_last (σ : State) (L : List Addr) (p src : Addr)
    (hS : Shares σ L p) (hp : p ≠ NULL) (hsrc : src ∈ L) (h1 : L.length = 1) :
    _destroy_type src σ =
      Outcome.ret () { σ with
        live := σ.live.erase p,
        log := σ.log ++ [Event.destroy_type src, Event.counter_read p 0, Event.free p] } ∧
    L.erase src = [] := by
  obtain ⟨hext, hnd, hlen⟩ := hS
  have he : (σ.wit src).extra = p := hext src hsrc
  have h0 : (σ.wit src).extra ≠ NULL := by rw [he]; exact hp
  have hc : σ.counter p = 0 := by omega
  have hz : σ.counter (σ.wit src).extra = 0 := by rw [he]; exact hc
  refine ⟨?_, ?_⟩
  · rw [_destroy_type_eq, if_neg h0, if_pos hz, he, hc]
  · apply List.eq_nil_of_length_eq_zero
    rw [List.length_erase_of_mem hsrc, h1]

/-- While a call is still to come, a disciplined run has returned, has freed
nothing, and the counter holds the number of live descriptors minus one. -/
theorem run_ops_prefix (E : Env) (p : Addr) (hp : p ≠ NULL) (hU : E.ULONG_MAX < 2 ^ 64)
    (pre suf : List Op) (hsuf : suf ≠ []) :
    ∀ (σ : State) (L : List Addr), Shares σ L p → L ≠ [] →
      disciplined L (pre ++ suf) = true →
      σ.counter p + copies (pre ++ suf) ≤ E.ULONG_MAX →
      ∃ σ1 evs, run_ops E pre σ = Outcome.ret () σ1 ∧ σ1.log = σ.log ++ evs ∧
        frees evs = [] ∧ Shares σ1 (live_after L pre) p ∧ live_after L pre ≠ [] := by
  induction pre with
  | nil =>
    intro σ L hS hL _ _
    exact ⟨σ, [], rfl, by simp, rfl, hS, hL⟩
  | cons op rest ih =>
    intro σ L hS hL hd hk
    cases op with
    | copy dest src =>
      simp only [List.cons_append, disciplined, Bool.and_eq_true, decide_eq_true_eq] at hd
      have hk1 : σ.counter p + (copies (rest ++ suf) + 1) ≤ E.ULONG_MAX := hk
      obtain ⟨σ1, hrun, hS1, hc1, hlog1⟩ :=
        copy_step E σ L p dest src hS hp hd.1.1 hd.1.2 (by omega) hU
      obtain ⟨σ2, evs, hrun2, hlog2, hfr, hS2, hL2⟩ :=
        ih σ1 (dest :: L) hS1 (List.cons_ne_nil _ _) hd.2 (by omega)
      refine ⟨σ2, [Event.copy_type dest src, Event.counter_read p (σ.counter p),
        Event.counter_write p (σ.counter p + 1)] ++ evs, ?_, ?_, ?_, hS2, hL2⟩
      · simp only [run_ops, run_op, bind_apply, hrun]
        exact hrun2
      · rw [hlog2, hlog1, List.append_assoc]
      · rw [frees_append, hfr]
        simp [frees, Event.freed]
    | destroy src =>
      simp only [List.cons_append, disciplined, Bool.and_eq_true, decide_eq_true_eq] at hd
      have hk1 : σ.counter p + copies (rest ++ suf) ≤ E.ULONG_MAX := hk
      by_cases h2 : 2 ≤ L.length
      · obtain ⟨σ1, hrun, hS1, hlog1⟩ :=
          destroy_step σ L p src hS hp hd.1 h2 (by omega)
        have hL1 : L.erase src ≠ [] := by
          intro h
          have := List.length_erase_of_mem hd.1
          rw [h] at this
          simp at this
          omega
        have hc1 : σ1.counter p ≤ σ.counter p := by
          have h3 := hS1.2.2
          have h4 := hS.2.2
          have h5 := List.length_erase_of_mem hd.1
          omega
        obtain ⟨σ2, evs, hrun2, hlog2, hfr, hS2, hL2⟩ :=
          ih σ1 (L.erase src) hS1 hL1 hd.2 (by omega)
        refine ⟨σ2, [Event.destroy_type src, Event.counter_read p (σ.counter p),
          Event.counter_write p (σ.counter p - 1)] ++ evs, ?_, ?_, ?_, hS2, hL2⟩
        · simp only [run_ops, run_op, bind_apply, hrun]
          exact hrun2
        · rw [hlog2, hlog1, List.append_assoc]
        · rw [frees_append, hfr]
          simp [frees, Event.freed]
      · have h1 : L.length = 1 := by
          have : L.length ≠ 0 := fun h => hL (List.eq_nil_of_length_eq_zero h)
          omega
        have hnil := (destroy_last σ L p src hS hp hd.1 h1).2
        rw [hnil] at hd
        have := disciplined_nil_left _ hd.2
        simp at this
        exact absurd this.2 hsuf

/-- A disciplined run that ends with no live descriptor returns, frees the
payload exactly once, and the free is its last step. -/
theorem run_ops_balanced (E : Env) (p : Addr) (hp : p ≠ NULL) (hU : E.ULONG_MAX < 2 ^ 64)
    (ops : List Op) :
    ∀ (σ : State) (L : List Addr), Shares σ L p → L ≠ [] →
      disciplined L ops = true → live_after L ops = [] →
      σ.counter p + copies ops ≤ E.ULONG_MAX →
      ∃ σ1 evs, run_ops E ops σ = Outcome.ret () σ1 ∧ σ1.log = σ.log ++ evs ∧
        frees evs = [p] ∧ evs.getLast? = some (Event.free p) ∧
        σ1.live = σ.live.erase p := by
  induction ops with
  | nil =>
    intro σ L _ hL _ hend _
    exact absurd hend hL
  | cons op rest ih =>
    intro σ L hS hL hd hend hk
    cases op with
    | copy dest src =>
      simp only [disciplined, Bool.and_eq_true, decide_eq_true_eq] at hd
      simp only [copies] at hk
      simp only [live_after] at hend
      obtain ⟨σ1, hrun, hS1, hc1, hlog1⟩ :=
        copy_step E σ L p dest src hS hp hd.1.1 hd.1.2 (by omega) hU
      obtain ⟨σ2, evs, hrun2, hlog2, hfr, hlast, hlive⟩ :=
        ih σ1 (dest :: L) hS1 (List.cons_ne_nil _ _) hd.2 hend (by omega)
      have hev : evs ≠ [] := by
        intro h
        rw [h] at hlast
        simp at hlast
      have hl1 : σ1.live = σ.live := by
        have h := hrun
        rw [_copy_type_eq] at h
        split at h
        · cases h; rfl
        · split at h
          · cases h
          · cases h; rfl
      refine ⟨σ2, [Event.copy_type dest src, Event.counter_read p (σ.counter p),
        Event.counter_write p (σ.counter p + 1)] ++ evs, ?_, ?_, ?_, ?_, ?_⟩
      · simp only [run_ops, run_op, bind_apply, hrun]
        exact hrun2
      · rw [hlog2, hlog1, List.append_assoc]
      · rw [frees_append, hfr]
        simp [frees, Event.freed]
      · rw [List.getLast?_append_of_ne_nil _ hev]
        exact hlast
      · rw [hlive, hl1]
    | destroy src =>
      simp only [disciplined, Bool.and_eq_true, decide_eq_true_eq] at hd
      simp only [copies] at hk
      simp only [live_after] at hend
      by_cases h2 : 2 ≤ L.length
      · obtain ⟨σ1, hrun, hS1, hlog1⟩ :=
          destroy_step σ L p src hS hp hd.1 h2 (by omega)
        have hL1 : L.erase src ≠ [] := by
          intro h
          have := List.length_erase_of_mem hd.1
          rw [h] at this
          simp at this
          omega
        have hc1 : σ1.counter p ≤ σ.counter p := by
          have h3 := hS1.2.2
          have h4 := hS.2.2
          have h5 := List.length_erase_of_mem hd.1
          omega
        obtain ⟨σ2, evs, hrun2, hlog2, hfr, hlast, hlive⟩ :=
          ih σ1 (L.erase src) hS1 hL1 hd.2 hend (by omega)
        have hev : evs ≠ [] := by
          intro h
          rw [h] at hlast
          simp at hlast
        have hl1 : σ1.live = σ.live := by
          have h := hrun
          rw [_destroy_type_eq] at h
          have hne : σ.counter (σ.wit src).extra ≠ 0 := by
            rw [hS.1 src hd.1]
            have := hS.2.2
            omega
          have h0 : (σ.wit src).extra ≠ NULL := by rw [hS.1 src hd.1]; exact hp
          rw [if_neg h0, if_neg hne] at h
          cases h; rfl
        refine ⟨σ2, [Event.destroy_type src, Event.counter_read p (σ.counter p),
          Event.counter_write p (σ.counter p - 1)] ++ evs, ?_, ?_, ?_, ?_, ?_⟩
        · simp only [run_ops, run_op, bind_apply, hrun]
          exact hrun2
        · rw [hlog2, hlog1, List.append_assoc]
        · rw [frees_append, hfr]
          simp [frees, Event.freed]
        · rw [List.getLast?_append_of_ne_nil _ hev]
          exact hlast
        · rw [hlive, hl1]
      · have h1 : L.length = 1 := by
          have : L.length ≠ 0 := fun h => hL (List.eq_nil_of_length_eq_zero h)
          omega
        obtain ⟨hrun, hnil⟩ := destroy_last σ L p src hS hp hd.1 h1
        rw [hnil] at hd
        have hrest := disciplined_nil_left _ hd.2
        subst hrest
        refine ⟨{ σ with
            live := σ.live.erase p,
            log := σ.log ++ [Event.destroy_type src, Event.counter_read p 0, Event.free p] },
          [Event.destroy_type src, Event.counter_read p 0, Event.free p],
          ?_, rfl, ?_, ?_, rfl⟩
        · simp only [run_ops, run_op, bind_apply, hrun, pure_apply]
        · simp [frees, Event.freed]
        · simp

/-- In a disciplined sequence, copies add to and destroys take from the number
of live descriptors. -/
theorem live_after_length (ops : List Op) :
    ∀ L : List Addr, disciplined L ops = true →
      (live_after L ops).length + destroys ops = L.length + copies ops := by
  induction ops with
  | nil => intro L _; simp [live_after, destroys, copies]
  | cons op rest ih =>
    intro L hd
    cases op with
    | copy dest src =>
      simp only [disciplined, Bool.and_eq_true, decide_eq_true_eq] at hd
      have := ih (dest :: L) hd.2
      simp only [live_after, destroys, copies, List.length_cons] at this ⊢
      omega
    | destroy src =>
      simp only [disciplined, Bool.and_eq_true, decide_eq_true_eq] at hd
      have := ih (L.erase src) hd.2
      have hl := List.length_erase_of_mem hd.1
      have hpos : 0 < L.length := List.length_pos_of_mem hd.1
      simp only [live_after, destroys, copies] at this ⊢
      omega

/-- C4: refcount balance. From a payload `p` whose counter is 0 and one owning
descriptor `d0`, on a target whose `ULONG_MAX` is `2^64 - 1`, every
disciplined sequence of `k < 2^64 - 1` copies that ends with no live
descriptor has `k + 1` destroys, returns, frees `p` exactly once and frees
nothing else, the free being the last step of the last call, which is a
destroy; and at every point before the last call nothing has been freed and
the counter holds the number of live descriptors minus one. -/
theorem refcount_balance (E : Env) (σ : State) (p d0 : Addr) (ops : List Op)
    (hU : E.ULONG_MAX = 2 ^ 64 - 1) (hp : p ≠ NULL)
    (hd0 : (σ.wit d0).extra = p) (h0 : σ.counter p = 0)
    (hdisc : disciplined [d0] ops = true) (hend : live_after [d0] ops = [])
    (hk : copies ops < 2 ^ 64 - 1) :
    destroys ops = copies ops + 1 ∧
    (∃ pre d, ops = pre ++ [Op.destroy d]) ∧
    (∃ σ1 evs, run_ops E ops σ = Outcome.ret () σ1 ∧ σ1.log = σ.log ++ evs ∧
      frees evs = [p] ∧ evs.getLast? = some (Event.free p) ∧
      σ1.live = σ.live.erase p) ∧
    (∀ pre suf, ops = pre ++ suf → suf ≠ [] →
      ∃ σ1 evs, run_ops E pre σ = Outcome.ret () σ1 ∧ σ1.log = σ.log ++ evs ∧
        frees evs = [] ∧ 1 ≤ (live_after [d0] pre).length ∧
        σ1.counter p = (live_after [d0] pre).length - 1) := by
  have hUlt : E.ULONG_MAX < 2 ^ 64 := by omega
  have hS : Shares σ [d0] p := by
    refine ⟨?_, List.nodup_singleton d0, by simp [h0]⟩
    intro d hd
    rw [List.mem_singleton.mp hd]
    exact hd0
  have hne : ([d0] : List Addr) ≠ [] := List.cons_ne_nil _ _
  have hlen := live_after_length ops [d0] hdisc
  rw [hend] at hlen
  have hbal := run_ops_balanced E p hp hUlt ops σ [d0] hS hne hdisc hend (by omega)
  refine ⟨by simp at hlen; omega, ?_, hbal, ?_⟩
  · have hops : ops ≠ [] := by
      intro h
      rw [h] at hend
      exact hne hend
    obtain ⟨pre, last, hpl⟩ : ∃ pre last, ops = pre ++ [last] :=
      ⟨ops.dropLast, ops.getLast hops, (List.dropLast_append_getLast hops).symm⟩
    cases last with
    | destroy d => exact ⟨pre, d, hpl⟩
    | copy dest src =>
      exfalso
      have hla : ∀ (L : List Addr) (xs : List Op),
          live_after L (xs ++ [Op.copy dest src]) ≠ [] := by
        intro L xs
        induction xs generalizing L with
        | nil => simp [live_after]
        | cons x rest ih =>
          cases x with
          | copy a b => exact ih (a :: L)
          | destroy a => exact ih (L.erase a)
      rw [hpl] at hend
      exact hla _ _ hend
  · intro pre suf hops hsuf
    subst hops
    obtain ⟨σ1, evs, hrun, hlog, hfr, hS1, hL1⟩ :=
      run_ops_prefix E p hp hUlt pre suf hsuf σ [d0] hS hne hdisc (by omega)
    have hpos : 1 ≤ (live_after [d0] pre).length := by
      rcases Nat.eq_zero_or_pos (live_after [d0] pre).length with h | h
      · exact absurd (List.eq_nil_of_length_eq_zero h) hL1
      · exact h
    have hc := hS1.2.2
    exact ⟨σ1, evs, hrun, hlog, hfr, hpos, by omega⟩

/-- Witness of C4: two copies and three destroys on the payload at 7. -/
theorem refcount_balance_witness :
    env_lp64.ULONG_MAX = 2 ^ 64 - 1 ∧ (7 : Addr) ≠ NULL ∧
    ((state_shared 0).wit 1).extra = 7 ∧ (state_shared 0).counter 7 = 0 ∧
    disciplined [1]
      [Op.copy 2 1, Op.copy 3 2, Op.destroy 1, Op.destroy 3, Op.destroy 2] = true ∧
    live_after [1]
      [Op.copy 2 1, Op.copy 3 2, Op.destroy 1, Op.destroy 3, Op.destroy 2] = [] ∧
    ∃ σ1 evs,
      run_ops env_lp64
        [Op.copy 2 1, Op.copy 3 2, Op.destroy 1, Op.destroy 3, Op.destroy 2]
        (state_shared 0) = Outcome.ret () σ1 ∧
      σ1.log = (state_shared 0).log ++ evs ∧ frees evs = [7] ∧
      evs.getLast? = some (Event.free 7) ∧
      σ1.live = (state_shared 0).live.erase 7 :=
  ⟨rfl, by decide, by decide, by decide, by decide, by decide,
    (refcount_balance env_lp64 (state_shared 0) 7 1
      [Op.copy 2 1, Op.copy 3 2, Op.destroy 1, Op.destroy 3, Op.destroy 2]
      rfl (by decide) (by decide) (by decide) (by decide) (by decide) (by decide)).2.2.1⟩

/-! ### Values through `id` -/

theorem F64_eq (t : Addr) (σ : State) :
    F64 t σ = Outcome.ret () { σ with wit := Function.update σ.wit t F64_witness } := by
  simp [F64, set_witness, bind_apply, F64_witness]

theorem two_slot_F64_eq (t : Addr) (σ : State) :
    TwoSlot.F64 t σ =
      Outcome.ret () { σ with lwit := Function.update σ.lwit t F64_lwitness } := by
  simp [TwoSlot.F64, TwoSlot.set_lwitness, bind_apply, F64_lwitness]

theorem _move_F64_eq (dest src extra : Addr) (σ : State) :
    _move_F64 dest src extra σ =
      Outcome.ret () { σ with bytes := moved8 dest src σ.bytes } := rfl

theorem load8_eq_of_bytes (σ1 σ : State) (r x : Addr)
    (h : ∀ i, i < 8 → σ1.bytes (r + i) = σ.bytes (x + i)) : load8 σ1 r = load8 σ x := by
  unfold load8
  apply List.map_congr_left
  intro i hi
  exact h i (List.mem_range.mp hi)

theorem moved8_at (dest src : Addr) (m : Addr → Nat) (i : Nat) (hi : i < 8) :
    moved8 dest src m (dest + i) = m (src + i) := by
  unfold moved8
  rw [if_pos ⟨Nat.le_add_right _ _, Nat.add_lt_add_left hi _⟩, Nat.add_sub_cancel_left]

/-- Code a slot points to returns and changes value bytes only. -/
theorem run3_eq (E : Env) (f : Fn3) (dest src extra : Addr) (σ : State) :
    ∃ b, run3 E f dest src extra σ = Outcome.ret () { σ with bytes := b } ∧
      (f = Fn3._move_F64 ∨ f = Fn3.move_F64 → b = moved8 dest src σ.bytes) := by
  cases f with
  | _move_F64 => exact ⟨_, rfl, fun _ => rfl⟩
  | move_F64 => exact ⟨_, rfl, fun _ => rfl⟩
  | foreign c => exact ⟨_, rfl, fun h => by rcases h with h | h <;> cases h⟩

theorem run2_eq (E : Env) (f : Fn2) (p extra : Addr) (σ : State) :
    ∃ b, run2 E f p extra σ = Outcome.ret () { σ with bytes := b } ∧
      (f = Fn2._destroy_F64 → b = σ.bytes) := by
  cases f with
  | _destroy_F64 => exact ⟨_, rfl, fun _ => rfl⟩
  | foreign c => exact ⟨_, rfl, fun h => by cases h⟩

/-- Function `_destroy_type` returns and leaves value bytes and descriptors alone. -/
theorem _destroy_type_frame (src : Addr) (σ : State) :
    ∃ σ1, _destroy_type src σ = Outcome.ret () σ1 ∧ σ1.bytes = σ.bytes ∧
      σ1.wit = σ.wit ∧ σ1.lwit = σ.lwit ∧ σ1.next = σ.next := by
  rw [_destroy_type_eq]
  split
  · exact ⟨_, rfl, rfl, rfl, rfl, rfl⟩
  · split
    · exact ⟨_, rfl, rfl, rfl, rfl, rfl⟩
    · exact ⟨_, rfl, rfl, rfl, rfl, rfl⟩

/-- The owning `id` with a descriptor whose `move` is `_move_F64`. -/
theorem ChainedFull.id_move_F64 (E : Env) (_result x t : Addr) (σ : State)
    (hm : (σ.wit t).move = Fn3._move_F64) :
    ∃ σ1, ChainedFull.id E _result x t σ = Outcome.ret () σ1 ∧
      σ1.bytes = moved8 _result x σ.bytes := by
  obtain ⟨σ1, h1, hb, _⟩ := _destroy_type_frame t
    { σ with bytes := moved8 _result x σ.bytes,
             log := σ.log ++ [Event.call_move t Fn3._move_F64 _result x (σ.wit t).extra] }
  refine ⟨σ1, ?_, hb⟩
  simp only [ChainedFull.id, call_move, bind_apply, load_witness, emit, hm, run3,
    _move_F64_eq]
  exact h1

/-- C5: `id(result, v, t)` leaves in `result` the eight bytes `v` held: for a
witness built by `F64` in the two-slot layout (move-only `id`), for a witness
built by `F64` in the four-slot layout (owning `id`), and for the owning `id`
with any descriptor whose `move` is `_move_F64`, whatever its `extra`. -/
theorem id_byte_identical (E : Env) (_result x t : Addr) (σ : State) :
    (∃ σ1, (TwoSlot.F64 t >>= fun _ => PolyId.id E _result x t) σ = Outcome.ret () σ1 ∧
      load8 σ1 _result = load8 σ x) ∧
    (∃ σ1, (F64 t >>= fun _ => ChainedFull.id E _result x t) σ = Outcome.ret () σ1 ∧
      load8 σ1 _result = load8 σ x) ∧
    ((σ.wit t).move = Fn3._move_F64 →
      ∃ σ1, ChainedFull.id E _result x t σ = Outcome.ret () σ1 ∧
        load8 σ1 _result = load8 σ x) := by
  refine ⟨?_, ?_, ?_⟩
  · simp only [bind_apply, two_slot_F64_eq, PolyId.id, TwoSlot.call_move, load_lwitness,
      emit, Function.update_same, F64_lwitness, run3, _move_F64_eq]
    exact ⟨_, rfl, load8_eq_of_bytes _ _ _ _ fun i hi => moved8_at _ _ _ i hi⟩
  · obtain ⟨σ1, h1, hb⟩ := ChainedFull.id_move_F64 E _result x t
      { σ with wit := Function.update σ.wit t F64_witness }
      (by simp [F64_witness])
    refine ⟨σ1, ?_, ?_⟩
    · simp only [bind_apply, F64_eq]
      exact h1
    · apply load8_eq_of_bytes
      intro i hi
      rw [hb]
      exact moved8_at _ _ _ i hi
  · intro hm
    obtain ⟨σ1, h1, hb⟩ := ChainedFull.id_move_F64 E _result x t σ hm
    refine ⟨σ1, h1, ?_⟩
    apply load8_eq_of_bytes
    intro i hi
    rw [hb]
    exact moved8_at _ _ _ i hi

/-- Witness of C5: a refcounted descriptor (non-null `extra`) whose `move` is
`_move_F64`. -/
theorem id_byte_identical_witness :
    ((state_shared 0).wit 1).move = Fn3._move_F64 ∧
    ∃ σ1, ChainedFull.id env_lp64 40 48 1 (state_shared 0) = Outcome.ret () σ1 ∧
      load8 σ1 40 = load8 (state_shared 0) 48 :=
  ⟨by decide, (id_byte_identical env_lp64 40 48 1 (state_shared 0)).2.2 (by decide)⟩

/-! ### `first_of` -/

theorem store_double_eq (p bits : Nat) (σ : State) :
    store_double p bits σ = Outcome.ret () { σ with bytes := stored8 p bits σ.bytes } := rfl

theorem memmove8_eq (dest src : Addr) (σ : State) :
    memmove dest src 8 σ = Outcome.ret () { σ with bytes := moved8 dest src σ.bytes } := rfl

theorem _copy_type_F64 (E : Env) (dest src : Addr) (σ : State) (h : σ.wit src = F64_witness) :
    _copy_type E dest src σ =
      Outcome.ret () { σ with wit := Function.update σ.wit dest F64_witness,
                              log := σ.log ++ [Event.copy_type dest src] } := by
  rw [_copy_type_eq, h]; rfl

theorem _destroy_type_F64 (src : Addr) (σ : State) (h : σ.wit src = F64_witness) :
    _destroy_type src σ =
      Outcome.ret () { σ with log := σ.log ++ [Event.destroy_type src] } := by
  rw [_destroy_type_eq, h]; rfl

theorem moved8_outside (dest src : Addr) (m : Addr → Nat) (a : Nat)
    (h : a < dest ∨ dest + 8 ≤ a) : moved8 dest src m a = m a := by
  unfold moved8
  rw [if_neg]
  intro hc
  rcases h with h | h
  · exact absurd hc.1 (Nat.not_le.mpr h)
  · exact absurd hc.2 (Nat.not_lt.mpr h)

theorem stored8_at (p bits : Nat) (m : Addr → Nat) (i : Nat) (hi : i < 8) :
    stored8 p bits m (p + i) = byte_of bits i := by
  unfold stored8
  rw [if_pos ⟨Nat.le_add_right _ _, Nat.add_lt_add_left hi _⟩, Nat.add_sub_cancel_left]

theorem stored8_outside (p bits : Nat) (m : Addr → Nat) (a : Nat)
    (h : a < p ∨ p + 8 ≤ a) : stored8 p bits m a = m a := by
  unfold stored8
  rw [if_neg]
  intro hc
  rcases h with h | h
  · exact absurd hc.1 (Nat.not_le.mpr h)
  · exact absurd hc.2 (Nat.not_lt.mpr h)

theorem load8_eq_bytes_of_double (σ1 : State) (r bits : Nat)
    (h : ∀ i, i < 8 → σ1.bytes (r + i) = byte_of bits i) :
    load8 σ1 r = bytes_of_double bits := by
  unfold load8 bytes_of_double
  apply List.map_congr_left
  intro i hi
  exact h i (List.mem_range.mp hi)

/-- Function `_destroy_type` returns; its log entries are the call itself followed by
steps that are not calls; value bytes and descriptors are left alone. -/
theorem _destroy_type_log (src : Addr) (σ : State) :
    ∃ σ1 evs, _destroy_type src σ = Outcome.ret () σ1 ∧
      σ1.log = σ.log ++ Event.destroy_type src :: evs ∧
      evs.filter Event.is_call = [] ∧ σ1.bytes = σ.bytes ∧ σ1.wit = σ.wit := by
  rw [_destroy_type_eq]
  split
  · exact ⟨_, [], rfl, rfl, rfl, rfl, rfl⟩
  · split
    · exact ⟨_, [_, _], rfl, rfl, rfl, rfl, rfl⟩
    · exact ⟨_, [_, _], rfl, rfl, rfl, rfl, rfl⟩

/-- The whole of `first`, step by step. -/
theorem First.first_eq (E : Env) (_result : Addr) (σ : State) :
    First.first E _result σ =
      Outcome.ret () { σ with
        bytes :=
          moved8 _result (σ.next + 80)
            (moved8 (σ.next + 80) (σ.next + 88)
              (moved8 (σ.next + 96) (σ.next + 8)
                (moved8 (σ.next + 88) σ.next
                  (stored8 (σ.next + 8) double_4 (stored8 σ.next double_3 σ.bytes))))),
        wit :=
          Function.update
            (Function.update
              (Function.update (Function.update σ.wit (σ.next + 16) F64_witness)
                (σ.next + 48) F64_witness)
              (σ.next + 104) F64_witness)
            (σ.next + 136) F64_witness,
        next := σ.next + 168,
        log := σ.log ++
          [Event.copy_type (σ.next + 104) (σ.next + 16),
           Event.copy_type (σ.next + 136) (σ.next + 48),
           Event.call_destroy (σ.next + 136) Fn2._destroy_F64 (σ.next + 96) NULL,
           Event.destroy_type (σ.next + 136),
           Event.call_move (σ.next + 104) Fn3._move_F64 (σ.next + 80) (σ.next + 88) NULL,
           Event.destroy_type (σ.next + 104),
           Event.destroy_type (σ.next + 48),
           Event.destroy_type (σ.next + 16)] } := by
  simp [First.first, bind_apply, alloca, store_double_eq, F64_eq, memmove8_eq,
    _copy_type_F64, _destroy_type_F64, First.first_of, call_destroy, call_move, load_witness,
    emit, Function.update_apply, run2, run3, _move_F64_eq, _destroy_F64, pure_apply,
    F64_witness, Nat.add_assoc]

/-- C6: `first_of(result, x, y, a, b)` returns, and the calls it makes are, in
this order, `b.destroy(y, b.extra)`, `_destroy_type(b)`,
`a.move(result, x, a.extra)`, `_destroy_type(a)`, and no other; with
descriptors built by `F64` these four are all it logs and `result` ends with
the eight bytes `x` held; `first()` writes the pattern of `3.0`. -/
theorem first_of_order (E : Env) (_result x y a b : Addr) (σ : State) :
    (∃ σ1 evs, First.first_of E _result x y a b σ = Outcome.ret () σ1 ∧
      σ1.log = σ.log ++ evs ∧
      evs.filter Event.is_call =
        [Event.call_destroy b (σ.wit b).destroy y (σ.wit b).extra,
         Event.destroy_type b,
         Event.call_move a (σ.wit a).move _result x (σ.wit a).extra,
         Event.destroy_type a]) ∧
    (σ.wit a = F64_witness → σ.wit b = F64_witness →
      ∃ σ1, First.first_of E _result x y a b σ = Outcome.ret () σ1 ∧
        σ1.log = σ.log ++
          [Event.call_destroy b Fn2._destroy_F64 y NULL, Event.destroy_type b,
           Event.call_move a Fn3._move_F64 _result x NULL, Event.destroy_type a] ∧
        load8 σ1 _result = load8 σ x) ∧
    (∃ σ1, First.first E _result σ = Outcome.ret () σ1 ∧
      load8 σ1 _result = bytes_of_double double_3) := by
  refine ⟨?_, ?_, ?_⟩
  · obtain ⟨b1, hr2, _⟩ := run2_eq E (σ.wit b).destroy y (σ.wit b).extra
      { σ with log := σ.log ++ [Event.call_destroy b (σ.wit b).destroy y (σ.wit b).extra] }
    obtain ⟨σ2, ev2, hd2, hl2, hf2, _, hw2⟩ := _destroy_type_log b
      { σ with bytes := b1,
               log := σ.log ++ [Event.call_destroy b (σ.wit b).destroy y (σ.wit b).extra] }
    obtain ⟨b3, hr3, _⟩ := run3_eq E (σ2.wit a).move _result x (σ2.wit a).extra
      { σ2 with log := σ2.log ++ [Event.call_move a (σ2.wit a).move _result x (σ2.wit a).extra] }
    obtain ⟨σ4, ev4, hd4, hl4, hf4, _, _⟩ := _destroy_type_log a
      { σ2 with bytes := b3,
                log := σ2.log ++ [Event.call_move a (σ2.wit a).move _result x (σ2.wit a).extra] }
    have hwa : σ2.wit a = σ.wit a := by rw [hw2]
    refine ⟨σ4, [Event.call_destroy b (σ.wit b).destroy y (σ.wit b).extra] ++
        (Event.destroy_type b :: ev2) ++
        [Event.call_move a (σ.wit a).move _result x (σ.wit a).extra] ++
        (Event.destroy_type a :: ev4), ?_, ?_, ?_⟩
    · simp only [First.first_of, call_destroy, call_move, bind_apply, load_witness, emit,
        hr2, hd2, hr3, hd4]
    · rw [hl4]
      simp only [hl2, hwa]
      simp
    · simp [List.filter_append, List.filter_cons, Event.is_call, hf2, hf4]
  · intro ha hb
    refine ⟨{ σ with
        bytes := moved8 _result x σ.bytes,
        log := σ.log ++
          [Event.call_destroy b Fn2._destroy_F64 y NULL, Event.destroy_type b,
           Event.call_move a Fn3._move_F64 _result x NULL, Event.destroy_type a] }, ?_, rfl, ?_⟩
    · simp [First.first_of, bind_apply, call_destroy, call_move, load_witness, emit, ha, hb,
        run2, run3, _move_F64_eq, _destroy_F64, pure_apply, _destroy_type_F64, F64_witness]
    · exact load8_eq_of_bytes _ _ _ _ fun i hi => moved8_at _ _ _ i hi
  · rw [First.first_eq]
    refine ⟨_, rfl, ?_⟩
    apply load8_eq_bytes_of_double
    intro i hi
    show moved8 _ _ _ _ = _
    have h1 : σ.next + 88 + i < σ.next + 96 :=
      (show ∀ n j : Nat, j < 8 → n + 88 + j < n + 96 by omega) σ.next i hi
    have h2 : σ.next + i < σ.next + 8 :=
      (show ∀ n j : Nat, j < 8 → n + j < n + 8 by omega) σ.next i hi
    rw [moved8_at _ _ _ i hi, moved8_at _ _ _ i hi,
      moved8_outside _ _ _ (σ.next + 88 + i) (Or.inl h1), moved8_at _ _ _ i hi,
      stored8_outside _ _ _ (σ.next + i) (Or.inl h2)]
    exact stored8_at _ _ _ i hi

/-- Witness of C6: `first_of` on two descriptors built by `F64`. -/
theorem first_of_order_witness :
    state_F64.wit 1 = F64_witness ∧ state_F64.wit 2 = F64_witness ∧
    ∃ σ1, First.first_of env_lp64 40 48 56 1 2 state_F64 = Outcome.ret () σ1 ∧
      σ1.log = state_F64.log ++
        [Event.call_destroy 2 Fn2._destroy_F64 56 NULL, Event.destroy_type 2,
         Event.call_move 1 Fn3._move_F64 40 48 NULL, Event.destroy_type 1] ∧
      load8 σ1 40 = load8 state_F64 48 :=
  ⟨rfl, rfl, (first_of_order env_lp64 40 48 56 1 2 state_F64).2.1 rfl rfl⟩

/-! ### `chained_poly_id_literal`, four-slot layout -/

theorem ChainedFull.literal_eq (_result : Addr) (σ : State) :
    ChainedFull.literal _result σ =
      Outcome.ret () { σ with
        bytes := moved8 _result σ.next (stored8 σ.next double_3 σ.bytes),
        next := σ.next + 8 } := by
  simp [ChainedFull.literal, bind_apply, alloca, store_double_eq, memmove8_eq]

/-- The whole of `chained_poly_id_literal`, step by step. -/
theorem ChainedFull.chained_poly_id_literal_eq (E : Env) (_result : Addr) (σ : State) :
    ChainedFull.chained_poly_id_literal E _result σ =
      Outcome.ret () { σ with
        bytes :=
          moved8 _result (σ.next + 128)
            (moved8 (σ.next + 128) (σ.next + 136)
              (moved8 (σ.next + 136) (σ.next + 48)
                (moved8 (σ.next + 48) (σ.next + 56)
                  (moved8 (σ.next + 56) σ.next
                    (moved8 σ.next (σ.next + 8)
                      (stored8 (σ.next + 8) double_3 σ.bytes)))))),
        wit :=
          Function.update
            (Function.update
              (Function.update (Function.update σ.wit (σ.next + 16) F64_witness)
                (σ.next + 64) F64_witness)
              (σ.next + 96) F64_witness)
            (σ.next + 144) F64_witness,
        next := σ.next + 176,
        log := σ.log ++
          [Event.copy_type (σ.next + 64) (σ.next + 16),
           Event.call_move (σ.next + 64) Fn3._move_F64 (σ.next + 48) (σ.next + 56) NULL,
           Event.destroy_type (σ.next + 64),
           Event.destroy_type (σ.next + 16),
           Event.copy_type (σ.next + 144) (σ.next + 96),
           Event.call_move (σ.next + 144) Fn3._move_F64 (σ.next + 128) (σ.next + 136) NULL,
           Event.destroy_type (σ.next + 144),
           Event.destroy_type (σ.next + 96)] } := by
  simp [ChainedFull.chained_poly_id_literal, ChainedFull.literal_eq, ChainedFull.id, bind_apply,
    alloca, F64_eq, memmove8_eq, _copy_type_F64, _destroy_type_F64, call_move, load_witness,
    emit, Function.update_apply, run3, _move_F64_eq, F64_witness, Nat.add_assoc]

/-- The log of `chained_poly_id_literal` with the frontier at `n`: the four
descriptors are `_3` at `n + 16`, `_6` at `n + 64`, `_4` at `n + 96` and `_8`
at `n + 144`. -/
theorem chained_events_once (n : Nat) (d : Nat)
    (hd : d = n + 16 ∨ d = n + 64 ∨ d = n + 96 ∨ d = n + 144) :
    List.count (Event.destroy_type d)
      [Event.copy_type (n + 64) (n + 16),
       Event.call_move (n + 64) Fn3._move_F64 (n + 48) (n + 56) NULL,
       Event.destroy_type (n + 64),
       Event.destroy_type (n + 16),
       Event.copy_type (n + 144) (n + 96),
       Event.call_move (n + 144) Fn3._move_F64 (n + 128) (n + 136) NULL,
       Event.destroy_type (n + 144),
       Event.destroy_type (n + 96)] = 1 ∧
    used_after_destroy d
      [Event.copy_type (n + 64) (n + 16),
       Event.call_move (n + 64) Fn3._move_F64 (n + 48) (n + 56) NULL,
       Event.destroy_type (n + 64),
       Event.destroy_type (n + 16),
       Event.copy_type (n + 144) (n + 96),
       Event.call_move (n + 144) Fn3._move_F64 (n + 128) (n + 136) NULL,
       Event.destroy_type (n + 144),
       Event.destroy_type (n + 96)] = false := by
  rcases hd with h | h | h | h <;> subst h <;>
    simp [List.count_cons, used_after_destroy, Event.uses]

/-- C7: `chained_poly_id_literal` (four-slot layout) returns with the pattern
of `3.0` in its result, the bytes `literal` writes; its log is the eight calls
below, in which each of `_3`, `_6`, `_4`, `_8` is passed to `_destroy_type`
exactly once (`_6`, `_8` right after the move inside `id`; `_3`, `_4` by the
caller after that) and is not used after that. -/
theorem chained_poly_id_literal_once (E : Env) (_result : Addr) (σ : State) :
    ∃ σ1 σ2 evs, ChainedFull.chained_poly_id_literal E _result σ = Outcome.ret () σ1 ∧
      ChainedFull.literal _result σ = Outcome.ret () σ2 ∧
      load8 σ1 _result = bytes_of_double double_3 ∧
      load8 σ1 _result = load8 σ2 _result ∧
      σ1.log = σ.log ++ evs ∧
      evs =
        [Event.copy_type (σ.next + 64) (σ.next + 16),
         Event.call_move (σ.next + 64) Fn3._move_F64 (σ.next + 48) (σ.next + 56) NULL,
         Event.destroy_type (σ.next + 64),
         Event.destroy_type (σ.next + 16),
         Event.copy_type (σ.next + 144) (σ.next + 96),
         Event.call_move (σ.next + 144) Fn3._move_F64 (σ.next + 128) (σ.next + 136) NULL,
         Event.destroy_type (σ.next + 144),
         Event.destroy_type (σ.next + 96)] ∧
      (evs.count (Event.destroy_type (σ.next + 16)) = 1 ∧
        used_after_destroy (σ.next + 16) evs = false) ∧
      (evs.count (Event.destroy_type (σ.next + 64)) = 1 ∧
        used_after_destroy (σ.next + 64) evs = false) ∧
      (evs.count (Event.destroy_type (σ.next + 96)) = 1 ∧
        used_after_destroy (σ.next + 96) evs = false) ∧
      (evs.count (Event.destroy_type (σ.next + 144)) = 1 ∧
        used_after_destroy (σ.next + 144) evs = false) := by
  rw [ChainedFull.chained_poly_id_literal_eq, ChainedFull.literal_eq]
  have h3 : ∀ i, i < 8 →
      moved8 _result (σ.next + 128)
        (moved8 (σ.next + 128) (σ.next + 136)
          (moved8 (σ.next + 136) (σ.next + 48)
            (moved8 (σ.next + 48) (σ.next + 56)
              (moved8 (σ.next + 56) σ.next
                (moved8 σ.next (σ.next + 8)
                  (stored8 (σ.next + 8) double_3 σ.bytes)))))) (_result + i) =
        byte_of double_3 i := by
    intro i hi
    rw [moved8_at _ _ _ i hi, moved8_at _ _ _ i hi, moved8_at _ _ _ i hi,
      moved8_at _ _ _ i hi, moved8_at _ _ _ i hi, moved8_at _ _ _ i hi]
    exact stored8_at _ _ _ i hi
  have h1 : ∀ i, i < 8 →
      moved8 _result σ.next (stored8 σ.next double_3 σ.bytes) (_result + i) =
        byte_of double_3 i := by
    intro i hi
    rw [moved8_at _ _ _ i hi]
    exact stored8_at _ _ _ i hi
  refine ⟨_, _, _, rfl, rfl, load8_eq_bytes_of_double _ _ _ h3, ?_, rfl, rfl,
    chained_events_once σ.next _ (Or.inl rfl),
    chained_events_once σ.next _ (Or.inr (Or.inl rfl)),
    chained_events_once σ.next _ (Or.inr (Or.inr (Or.inl rfl))),
    chained_events_once σ.next _ (Or.inr (Or.inr (Or.inr rfl)))⟩
  rw [load8_eq_bytes_of_double _ _ _ h3, load8_eq_bytes_of_double _ _ _ h1]

/-! ### The `let` rebind of `poly_let` -/

/-- Function `id` of `poly_let` on a descriptor built by `F64`, step by step. -/
theorem PolyLet.id_F64 (E : Env) (size : _witness → Nat) (_result x t : Addr) (σ : State)
    (h : σ.wit t = F64_witness) :
    PolyLet.id E size _result x t σ =
      Outcome.ret () { σ with
        bytes := moved8 _result σ.next (moved8 σ.next x σ.bytes),
        next := σ.next + max (size F64_witness) 1,
        live := σ.live ++ [σ.next],
        log := σ.log ++
          [Event.malloc (size F64_witness) σ.next,
           Event.call_copy t Fn3._move_F64 σ.next x NULL,
           Event.call_destroy t Fn2._destroy_F64 x NULL,
           Event.call_move t Fn3._move_F64 _result σ.next NULL,
           Event.destroy_type t] } := by
  simp [PolyLet.id, bind_apply, load_witness, malloc, call_copy, call_destroy, call_move,
    emit, h, run2, run3, _move_F64_eq, _destroy_F64, pure_apply, _destroy_type_F64,
    F64_witness]

/-- The whole of `poly_let`, step by step. -/
theorem PolyLet.poly_let_eq (E : Env) (size : _witness → Nat) (_result : Addr) (σ : State) :
    PolyLet.poly_let E size _result σ =
      Outcome.ret () { σ with
        bytes :=
          moved8 _result (σ.next + 40)
            (moved8 (σ.next + 40) (σ.next + 88)
              (moved8 (σ.next + 88) (σ.next + 48)
                (moved8 (σ.next + 48) σ.next (stored8 σ.next double_3 σ.bytes)))),
        wit :=
          Function.update (Function.update σ.wit (σ.next + 8) F64_witness)
            (σ.next + 56) F64_witness,
        next := σ.next + 88 + max (size F64_witness) 1,
        live := σ.live ++ [σ.next + 88],
        log := σ.log ++
          [Event.copy_type (σ.next + 56) (σ.next + 8),
           Event.malloc (size F64_witness) (σ.next + 88),
           Event.call_copy (σ.next + 56) Fn3._move_F64 (σ.next + 88) (σ.next + 48) NULL,
           Event.call_destroy (σ.next + 56) Fn2._destroy_F64 (σ.next + 48) NULL,
           Event.call_move (σ.next + 56) Fn3._move_F64 (σ.next + 40) (σ.next + 88) NULL,
           Event.destroy_type (σ.next + 56),
           Event.destroy_type (σ.next + 8)] } := by
  simp [PolyLet.poly_let, bind_apply, alloca, store_double_eq, F64_eq, memmove8_eq,
    _copy_type_F64, _destroy_type_F64, PolyLet.id_F64, Function.update_apply, F64_witness,
    Nat.add_assoc]

/-- C8: on a descriptor built by `F64`, the `let` rebind (`id` of `poly_let`)
returns with `result` holding the eight bytes `x` held, the bytes a plain
`_move_F64(result, x)` leaves there, and logs exactly: the allocation, one
call of `t.copy` (of `x` into the heap cell), one call of `t.destroy` (of
`x`), the move of the heap cell to `result`, `_destroy_type(t)`; `poly_let()`
writes the pattern of `3.0`. -/
theorem let_rebind (E : Env) (size : _witness → Nat) (_result x t : Addr) (σ : State) :
    (σ.wit t = F64_witness →
      ∃ σ1 σ2, PolyLet.id E size _result x t σ = Outcome.ret () σ1 ∧
        _move_F64 _result x NULL σ = Outcome.ret () σ2 ∧
        load8 σ1 _result = load8 σ x ∧
        load8 σ1 _result = load8 σ2 _result ∧
        σ1.log = σ.log ++
          [Event.malloc (size F64_witness) σ.next,
           Event.call_copy t Fn3._move_F64 σ.next x NULL,
           Event.call_destroy t Fn2._destroy_F64 x NULL,
           Event.call_move t Fn3._move_F64 _result σ.next NULL,
           Event.destroy_type t]) ∧
    (∃ σ1, PolyLet.poly_let E size _result σ = Outcome.ret () σ1 ∧
      load8 σ1 _result = bytes_of_double double_3) := by
  refine ⟨?_, ?_⟩
  · intro h
    rw [PolyLet.id_F64 E size _result x t σ h, _move_F64_eq]
    have h1 : ∀ i, i < 8 →
        moved8 _result σ.next (moved8 σ.next x σ.bytes) (_result + i) = σ.bytes (x + i) := by
      intro i hi
      rw [moved8_at _ _ _ i hi, moved8_at _ _ _ i hi]
    have h2 : ∀ i, i < 8 → moved8 _result x σ.bytes (_result + i) = σ.bytes (x + i) :=
      fun i hi => moved8_at _ _ _ i hi
    exact ⟨_, _, rfl, rfl, load8_eq_of_bytes _ _ _ _ h1,
      (load8_eq_of_bytes _ σ _ x h1).trans (load8_eq_of_bytes _ σ _ x h2).symm, rfl⟩
  · rw [PolyLet.poly_let_eq]
    refine ⟨_, rfl, ?_⟩
    apply load8_eq_bytes_of_double
    intro i hi
    show moved8 _ _ _ _ = _
    rw [moved8_at _ _ _ i hi, moved8_at _ _ _ i hi, moved8_at _ _ _ i hi,
      moved8_at _ _ _ i hi]
    exact stored8_at _ _ _ i hi

/-- Witness of C8: the rebind on a descriptor built by `F64`, value size 8. -/
theorem let_rebind_witness :
    state_F64.wit 1 = F64_witness ∧
    ∃ σ1 σ2, PolyLet.id env_lp64 (fun _ => 8) 40 48 1 state_F64 = Outcome.ret () σ1 ∧
      _move_F64 40 48 NULL state_F64 = Outcome.ret () σ2 ∧
      load8 σ1 40 = load8 state_F64 48 ∧
      load8 σ1 40 = load8 σ2 40 ∧
      σ1.log = state_F64.log ++
        [Event.malloc 8 state_F64.next,
         Event.call_copy 1 Fn3._move_F64 state_F64.next 48 NULL,
         Event.call_destroy 1 Fn2._destroy_F64 48 NULL,
         Event.call_move 1 Fn3._move_F64 40 state_F64.next NULL,
         Event.destroy_type 1] :=
  ⟨rfl, (let_rebind env_lp64 (fun _ => 8) 40 48 1 state_F64).1 rfl⟩

/-- C9 (what the code does): the block `id` of `poly_let` allocates is still
live when it returns, and nothing is freed: after `F64(t); id(result, x, t)`
and after `poly_let()` the live blocks are those before plus the new one. -/
theorem let_rebind_leaks (E : Env) (size : _witness → Nat) (_result x t : Addr) (σ : State) :
    (∃ σ1 evs, (F64 t >>= fun _ => PolyLet.id E size _result x t) σ = Outcome.ret () σ1 ∧
      σ1.live = σ.live ++ [σ.next] ∧ σ1.live ≠ σ.live ∧
      σ1.log = σ.log ++ evs ∧ frees evs = []) ∧
    (∃ σ1 evs, PolyLet.poly_let E size _result σ = Outcome.ret () σ1 ∧
      σ1.live = σ.live ++ [σ.next + 88] ∧ σ1.live ≠ σ.live ∧
      σ1.log = σ.log ++ evs ∧ frees evs = []) := by
  have hne : ∀ (L : List Addr) (a : Addr), L ++ [a] ≠ L := by
    intro L a h
    have := congrArg List.length h
    simp at this
  refine ⟨?_, ?_⟩
  · simp only [bind_apply, F64_eq]
    rw [PolyLet.id_F64 E size _result x t _ (by simp)]
    exact ⟨_, _, rfl, rfl, hne _ _, rfl, by simp [frees, Event.freed]⟩
  · rw [PolyLet.poly_let_eq]
    exact ⟨_, _, rfl, rfl, hne _ _, rfl, by simp [frees, Event.freed]⟩

/-! ### Descriptors built by `F64` -/

/-- Calls on descriptors that hold what `F64` builds return, leave counters
and live blocks alone, log only the calls themselves, and every descriptor
they produce again holds what `F64` builds. -/
theorem run_ops_F64 (E : Env) (ops : List Op) :
    ∀ (σ : State) (S : List Addr), (∀ d ∈ S, σ.wit d = F64_witness) →
      sources_in S ops = true →
      ∃ σ1 evs, run_ops E ops σ = Outcome.ret () σ1 ∧ σ1.log = σ.log ++ evs ∧
        evs.all Event.is_type_call = true ∧ evs.length = ops.length ∧
        σ1.counter = σ.counter ∧ σ1.live = σ.live ∧
        (∀ d ∈ produced S ops, σ1.wit d = F64_witness) := by
  induction ops with
  | nil =>
    intro σ S hS _
    exact ⟨σ, [], rfl, by simp, rfl, rfl, rfl, rfl, hS⟩
  | cons op rest ih =>
    intro σ S hS hsrc
    cases op with
    | copy dest src =>
      simp only [sources_in, Bool.and_eq_true, decide_eq_true_eq] at hsrc
      have hS1 : ∀ d ∈ dest :: S,
          (Function.update σ.wit dest F64_witness) d = F64_witness := by
        intro d hd
        by_cases hdd : d = dest
        · subst hdd; simp
        · rw [Function.update_noteq hdd]
          rcases List.mem_cons.mp hd with h | h
          · exact absurd h hdd
          · exact hS d h
      obtain ⟨σ2, evs, hrun, hlog, hall, hlen, hc, hl, hw⟩ :=
        ih { σ with wit := Function.update σ.wit dest F64_witness,
                    log := σ.log ++ [Event.copy_type dest src] } (dest :: S) hS1 hsrc.2
      refine ⟨σ2, Event.copy_type dest src :: evs, ?_, ?_, ?_, ?_, hc, hl, hw⟩
      · simp only [run_ops, run_op, bind_apply, _copy_type_F64 E dest src σ (hS src hsrc.1)]
        exact hrun
      · rw [hlog]; simp
      · simp [Event.is_type_call, hall]
      · simp [hlen]
    | destroy src =>
      simp only [sources_in, Bool.and_eq_true, decide_eq_true_eq] at hsrc
      obtain ⟨σ2, evs, hrun, hlog, hall, hlen, hc, hl, hw⟩ :=
        ih { σ with log := σ.log ++ [Event.destroy_type src] } S hS hsrc.2
      refine ⟨σ2, Event.destroy_type src :: evs, ?_, ?_, ?_, ?_, hc, hl, hw⟩
      · simp only [run_ops, run_op, bind_apply, _destroy_type_F64 src σ (hS src hsrc.1)]
        exact hrun
      · rw [hlog]; simp
      · simp [Event.is_type_call, hall]
      · simp [hlen]

/-- C10: `F64` returns with the descriptor holding `_move_F64`, `_move_F64`,
`_destroy_F64` and a null `extra`; and after it, any sequence of `_copy_type`
and `_destroy_type` calls on that descriptor and on the copies made from it
returns (no `exit`), logs one entry per call and nothing else (no counter
read, no counter write, no `free`), leaves every counter and the live blocks
as they were, and every copy again holds the descriptor `F64` builds. -/
theorem F64_never_counts (E : Env) (d0 : Addr) (ops : List Op) (σ : State) :
    (∃ σ1, F64 d0 σ = Outcome.ret () σ1 ∧
      (σ1.wit d0).move = Fn3._move_F64 ∧ (σ1.wit d0).copy = Fn3._move_F64 ∧
      (σ1.wit d0).destroy = Fn2._destroy_F64 ∧ (σ1.wit d0).extra = NULL) ∧
    (sources_in [d0] ops = true →
      ∃ σ1 evs, (F64 d0 >>= fun _ => run_ops E ops) σ = Outcome.ret () σ1 ∧
        σ1.log = σ.log ++ evs ∧ evs.all Event.is_type_call = true ∧
        evs.length = ops.length ∧ frees evs = [] ∧
        σ1.counter = σ.counter ∧ σ1.live = σ.live ∧
        (∀ d ∈ produced [d0] ops, σ1.wit d = F64_witness)) := by
  refine ⟨⟨_, F64_eq d0 σ, ?_⟩, ?_⟩
  · simp [F64_witness]
  · intro hsrc
    obtain ⟨σ1, evs, hrun, hlog, hall, hlen, hc, hl, hw⟩ :=
      run_ops_F64 E ops { σ with wit := Function.update σ.wit d0 F64_witness } [d0]
        (by intro d hd; rw [List.mem_singleton.mp hd]; simp) hsrc
    refine ⟨σ1, evs, ?_, hlog, hall, hlen, ?_, hc, hl, hw⟩
    · simp only [bind_apply, F64_eq]
      exact hrun
    · have hfr : ∀ es : List Event, es.all Event.is_type_call = true → frees es = [] := by
        intro es
        induction es with
        | nil => intro _; rfl
        | cons e es ihe =>
          intro h
          simp only [List.all_cons, Bool.and_eq_true] at h
          have := ihe h.2
          cases e <;> simp_all [frees, Event.freed, Event.is_type_call]
      exact hfr evs hall

/-- Witness of C10: a descriptor built at 1, copied to 2, the copy copied to
3, and all three destroyed. -/
theorem F64_never_counts_witness :
    sources_in [1]
      [Op.copy 2 1, Op.copy 3 2, Op.destroy 3, Op.destroy 2, Op.destroy 1] = true ∧
    ∃ σ1 evs,
      (F64 1 >>= fun _ => run_ops env_lp64
        [Op.copy 2 1, Op.copy 3 2, Op.destroy 3, Op.destroy 2, Op.destroy 1])
        (state_shared (2 ^ 64 - 1)) = Outcome.ret () σ1 ∧
      σ1.log = (state_shared (2 ^ 64 - 1)).log ++ evs ∧
      evs.all Event.is_type_call = true ∧
      evs.length =
        [Op.copy 2 1, Op.copy 3 2, Op.destroy 3, Op.destroy 2, Op.destroy 1].length ∧
      frees evs = [] ∧
      σ1.counter = (state_shared (2 ^ 64 - 1)).counter ∧
      σ1.live = (state_shared (2 ^ 64 - 1)).live ∧
      (∀ d ∈ produced [1]
          [Op.copy 2 1, Op.copy 3 2, Op.destroy 3, Op.destroy 2, Op.destroy 1],
        σ1.wit d = F64_witness) :=
  ⟨by decide,
    (F64_never_counts env_lp64 1
      [Op.copy 2 1, Op.copy 3 2, Op.destroy 3, Op.destroy 2, Op.destroy 1]
      (state_shared (2 ^ 64 - 1))).2 (by decide)⟩

/-! ### The owning `id` -/

/-- Code a slot points to acts on the value bytes alone: from a state with the
same bytes it leaves the same bytes, and nothing else changes. -/
theorem run3_bytes (E : Env) (f : Fn3) (dest src extra : Addr) (σ σ0 : State)
    (h : σ0.bytes = σ.bytes) :
    run3 E f dest src extra σ0 =
      Outcome.ret () { σ0 with bytes := (run3 E f dest src extra σ).state.bytes } := by
  cases f with
  | _move_F64 => simp [run3, _move_F64_eq, Outcome.state, h]
  | move_F64 => simp [run3, _move_F64_eq, Outcome.state, h]
  | foreign c => simp [run3, Outcome.state, h]

/-- The owning `id`: the move through `t`, then `_destroy_type(t)`. -/
theorem ChainedFull.id_eq (E : Env) (_result x t : Addr) (σ : State) :
    ChainedFull.id E _result x t σ =
      _destroy_type t { σ with
        bytes := (run3 E (σ.wit t).move _result x (σ.wit t).extra σ).state.bytes,
        log := σ.log ++
          [Event.call_move t (σ.wit t).move _result x (σ.wit t).extra] } := by
  have h := run3_bytes E (σ.wit t).move _result x (σ.wit t).extra σ
    { σ with log := σ.log ++ [Event.call_move t (σ.wit t).move _result x (σ.wit t).extra] }
    rfl
  simp only [ChainedFull.id, call_move, bind_apply, load_witness, emit, h]

/-- C11: the owning `id(result, x, t)` returns; it first calls
`t.move(result, x, t.extra)` and then releases one ownership unit of `t`: with
a null `extra` nothing else happens; with the counter at 0 the payload is
freed; with the counter at `n > 0` it becomes `n - 1`. In each case the move is
logged before any step of the release (so before the `free`), and the
`_destroy_type(t)` entry is the last that names `t`. -/
theorem owning_id_release (E : Env) (_result x t : Addr) (σ : State) :
    ((σ.wit t).extra = NULL →
      ChainedFull.id E _result x t σ =
        Outcome.ret () { σ with
          bytes := (run3 E (σ.wit t).move _result x (σ.wit t).extra σ).state.bytes,
          log := σ.log ++
            [Event.call_move t (σ.wit t).move _result x (σ.wit t).extra,
             Event.destroy_type t] }) ∧
    ((σ.wit t).extra ≠ NULL → σ.counter (σ.wit t).extra = 0 →
      ChainedFull.id E _result x t σ =
        Outcome.ret () { σ with
          bytes := (run3 E (σ.wit t).move _result x (σ.wit t).extra σ).state.bytes,
          live := σ.live.erase (σ.wit t).extra,
          log := σ.log ++
            [Event.call_move t (σ.wit t).move _result x (σ.wit t).extra,
             Event.destroy_type t,
             Event.counter_read (σ.wit t).extra 0,
             Event.free (σ.wit t).extra] }) ∧
    (∀ n, (σ.wit t).extra ≠ NULL → σ.counter (σ.wit t).extra = n → 0 < n → n < 2 ^ 64 →
      ChainedFull.id E _result x t σ =
        Outcome.ret () { σ with
          bytes := (run3 E (σ.wit t).move _result x (σ.wit t).extra σ).state.bytes,
          counter := Function.update σ.counter (σ.wit t).extra (n - 1),
          log := σ.log ++
            [Event.call_move t (σ.wit t).move _result x (σ.wit t).extra,
             Event.destroy_type t,
             Event.counter_read (σ.wit t).extra n,
             Event.counter_write (σ.wit t).extra (n - 1)] }) := by
  refine ⟨?_, ?_, ?_⟩
  · intro h0
    rw [ChainedFull.id_eq, _destroy_type_eq]
    simp [h0]
  · intro h0 h1
    rw [ChainedFull.id_eq, _destroy_type_eq]
    simp [h0, h1]
  · intro n h0 h1 hpos hlt
    have hne : σ.counter (σ.wit t).extra ≠ 0 := by omega
    have hm : (n + 2 ^ 64 - 1) % 2 ^ 64 = n - 1 := by
      have : n + 2 ^ 64 - 1 = (n - 1) + 2 ^ 64 := by omega
      rw [this, Nat.add_mod_right]
      exact Nat.mod_eq_of_lt (by omega)
    rw [ChainedFull.id_eq, _destroy_type_eq]
    simp only [if_neg h0, if_neg hne, h1, hm]
    simp
    omega

/-- Witness of C11: a descriptor whose counter holds 3. -/
theorem owning_id_release_witness :
    ((state_shared 3).wit 1).extra ≠ NULL ∧
    (state_shared 3).counter ((state_shared 3).wit 1).extra = 3 ∧
    ChainedFull.id env_lp64 40 48 1 (state_shared 3) =
      Outcome.ret () { state_shared 3 with
        bytes := (run3 env_lp64 ((state_shared 3).wit 1).move 40 48
          ((state_shared 3).wit 1).extra (state_shared 3)).state.bytes,
        counter := Function.update (state_shared 3).counter
          ((state_shared 3).wit 1).extra (3 - 1),
        log := (state_shared 3).log ++
          [Event.call_move 1 ((state_shared 3).wit 1).move 40 48
             ((state_shared 3).wit 1).extra,
           Event.destroy_type 1,
           Event.counter_read ((state_shared 3).wit 1).extra 3,
           Event.counter_write ((state_shared 3).wit 1).extra (3 - 1)] } :=
  ⟨by decide, by decide,
    (owning_id_release env_lp64 40 48 1 (state_shared 3)).2.2 3
      (by decide) (by decide) (by decide) (by decide)⟩

/-! ### Destroying twice -/

theorem _destroy_type_null (d : Addr) (σ : State) (h0 : (σ.wit d).extra = NULL) :
    _destroy_type d σ =
      Outcome.ret () { σ with log := σ.log ++ [Event.destroy_type d] } := by
  rw [_destroy_type_eq, if_pos h0]

theorem _destroy_type_zero (d : Addr) (σ : State) (h0 : (σ.wit d).extra ≠ NULL)
    (h1 : σ.counter (σ.wit d).extra = 0) :
    _destroy_type d σ =
      Outcome.ret () { σ with
        live := σ.live.erase (σ.wit d).extra,
        log := σ.log ++ [Event.destroy_type d, Event.counter_read (σ.wit d).extra 0,
          Event.free (σ.wit d).extra] } := by
  rw [_destroy_type_eq, if_neg h0, if_pos h1, h1]

/-- With a non-null `extra` and a non-zero counter `c`, `_destroy_type` stores
`c1`, the value of `c - 1` in 64-bit unsigned arithmetic. -/
theorem _destroy_type_pos (d : Addr) (σ : State) (h0 : (σ.wit d).extra ≠ NULL)
    (h1 : σ.counter (σ.wit d).extra ≠ 0) :
    ∃ c1, c1 = (σ.counter (σ.wit d).extra + 2 ^ 64 - 1) % 2 ^ 64 ∧
      c1 < 2 ^ 64 ∧
      (σ.counter (σ.wit d).extra < 2 ^ 64 → c1 = σ.counter (σ.wit d).extra - 1) ∧
      _destroy_type d σ =
        Outcome.ret () { σ with
          counter := Function.update σ.counter (σ.wit d).extra c1,
          log := σ.log ++ [Event.destroy_type d,
            Event.counter_read (σ.wit d).extra (σ.counter (σ.wit d).extra),
            Event.counter_write (σ.wit d).extra c1] } := by
  refine ⟨_, rfl, Nat.mod_lt _ (by decide), ?_, ?_⟩
  · intro hlt
    have : σ.counter (σ.wit d).extra + 2 ^ 64 - 1 =
        (σ.counter (σ.wit d).extra - 1) + 2 ^ 64 := by omega
    rw [this, Nat.add_mod_right]
    exact Nat.mod_eq_of_lt (by omega)
  · rw [_destroy_type_eq, if_neg h0, if_neg h1]

theorem destroy_twice_eq (d : Addr) (σ σ1 : State)
    (h : _destroy_type d σ = Outcome.ret () σ1) :
    destroy_twice d σ = _destroy_type d σ1 := by
  simp only [destroy_twice, bind_apply, h]

/-- C12: `_destroy_type` applied twice to the same descriptor has the effect of
one application exactly when `extra` is null. With a non-null `extra` and the
counter at `n >= 2` the second call decrements again (`n - 2` against
`n - 1`); at `n = 1` the second call frees the payload; at `n = 0` the second
call reads the counter of the payload the first call freed, and frees it
again. -/
theorem destroy_not_idempotent (d : Addr) (σ : State) :
    (same_effect (destroy_twice d σ).state (_destroy_type d σ).state ↔
      (σ.wit d).extra = NULL) ∧
    (∀ n, (σ.wit d).extra ≠ NULL → σ.counter (σ.wit d).extra = n → 2 ≤ n → n < 2 ^ 64 →
      (destroy_twice d σ).state.counter (σ.wit d).extra = n - 2 ∧
      (_destroy_type d σ).state.counter (σ.wit d).extra = n - 1 ∧
      frees (destroy_twice d σ).state.log = frees σ.log) ∧
    ((σ.wit d).extra ≠ NULL → σ.counter (σ.wit d).extra = 1 →
      destroy_twice d σ =
        Outcome.ret () { σ with
          counter := Function.update σ.counter (σ.wit d).extra 0,
          live := σ.live.erase (σ.wit d).extra,
          log := σ.log ++
            [Event.destroy_type d, Event.counter_read (σ.wit d).extra 1,
             Event.counter_write (σ.wit d).extra 0,
             Event.destroy_type d, Event.counter_read (σ.wit d).extra 0,
             Event.free (σ.wit d).extra] }) ∧
    ((σ.wit d).extra ≠ NULL → σ.counter (σ.wit d).extra = 0 →
      destroy_twice d σ =
        Outcome.ret () { σ with
          live := (σ.live.erase (σ.wit d).extra).erase (σ.wit d).extra,
          log := σ.log ++
            [Event.destroy_type d, Event.counter_read (σ.wit d).extra 0,
             Event.free (σ.wit d).extra,
             Event.destroy_type d, Event.counter_read (σ.wit d).extra 0,
             Event.free (σ.wit d).extra] } ∧
      used_after_free (σ.wit d).extra
        [Event.destroy_type d, Event.counter_read (σ.wit d).extra 0,
         Event.free (σ.wit d).extra,
         Event.destroy_type d, Event.counter_read (σ.wit d).extra 0,
         Event.free (σ.wit d).extra] = true) := by
  -- the second call, after a first call that freed the payload
  have hzz : (σ.wit d).extra ≠ NULL → σ.counter (σ.wit d).extra = 0 →
      destroy_twice d σ =
        Outcome.ret () { σ with
          live := (σ.live.erase (σ.wit d).extra).erase (σ.wit d).extra,
          log := σ.log ++
            [Event.destroy_type d, Event.counter_read (σ.wit d).extra 0,
             Event.free (σ.wit d).extra,
             Event.destroy_type d, Event.counter_read (σ.wit d).extra 0,
             Event.free (σ.wit d).extra] } := by
    intro h0 h1
    rw [destroy_twice_eq d σ _ (_destroy_type_zero d σ h0 h1),
      _destroy_type_zero d
        { σ with
          live := σ.live.erase (σ.wit d).extra,
          log := σ.log ++ [Event.destroy_type d, Event.counter_read (σ.wit d).extra 0,
            Event.free (σ.wit d).extra] } h0 h1]
    simp
  -- the second call, after a first call that stored `c1`
  have hpz : ∀ c1, (σ.wit d).extra ≠ NULL →
      _destroy_type d σ =
        Outcome.ret () { σ with
          counter := Function.update σ.counter (σ.wit d).extra c1,
          log := σ.log ++ [Event.destroy_type d,
            Event.counter_read (σ.wit d).extra (σ.counter (σ.wit d).extra),
            Event.counter_write (σ.wit d).extra c1] } →
      c1 = 0 →
      destroy_twice d σ =
        Outcome.ret () { σ with
          counter := Function.update σ.counter (σ.wit d).extra c1,
          live := σ.live.erase (σ.wit d).extra,
          log := σ.log ++
            [Event.destroy_type d,
             Event.counter_read (σ.wit d).extra (σ.counter (σ.wit d).extra),
             Event.counter_write (σ.wit d).extra c1,
             Event.destroy_type d, Event.counter_read (σ.wit d).extra 0,
             Event.free (σ.wit d).extra] } := by
    intro c1 h0 hrun hc1
    rw [destroy_twice_eq d σ _ hrun,
      _destroy_type_zero d
        { σ with
          counter := Function.update σ.counter (σ.wit d).extra c1,
          log := σ.log ++ [Event.destroy_type d,
            Event.counter_read (σ.wit d).extra (σ.counter (σ.wit d).extra),
            Event.counter_write (σ.wit d).extra c1] } h0
        (by simp [hc1])]
    simp
  have hpp : ∀ c1, (σ.wit d).extra ≠ NULL →
      _destroy_type d σ =
        Outcome.ret () { σ with
          counter := Function.update σ.counter (σ.wit d).extra c1,
          log := σ.log ++ [Event.destroy_type d,
            Event.counter_read (σ.wit d).extra (σ.counter (σ.wit d).extra),
            Event.counter_write (σ.wit d).extra c1] } →
      c1 ≠ 0 → c1 < 2 ^ 64 →
      ∃ evs, destroy_twice d σ =
        Outcome.ret () { σ with
          counter := Function.update σ.counter (σ.wit d).extra (c1 - 1),
          log := σ.log ++ evs } ∧ frees evs = [] := by
    intro c1 h0 hrun hc1 hlt
    obtain ⟨c2, _, _, hc2, hrun2⟩ := _destroy_type_pos d
      { σ with
        counter := Function.update σ.counter (σ.wit d).extra c1,
        log := σ.log ++ [Event.destroy_type d,
          Event.counter_read (σ.wit d).extra (σ.counter (σ.wit d).extra),
          Event.counter_write (σ.wit d).extra c1] } h0 (by simp [hc1])
    have hc2' : c2 = c1 - 1 := by
      have := hc2 (show Function.update σ.counter (σ.wit d).extra c1 (σ.wit d).extra < 2 ^ 64 by
        rw [Function.update_same]; exact hlt)
      simpa using this
    rw [destroy_twice_eq d σ _ hrun, hrun2, hc2']
    refine ⟨[Event.destroy_type d,
      Event.counter_read (σ.wit d).extra (σ.counter (σ.wit d).extra),
      Event.counter_write (σ.wit d).extra c1, Event.destroy_type d,
      Event.counter_read (σ.wit d).extra c1,
      Event.counter_write (σ.wit d).extra (c1 - 1)], ?_, ?_⟩
    · simp
    · simp [frees, Event.freed]
  refine ⟨?_, ?_, ?_, ?_⟩
  · by_cases h0 : (σ.wit d).extra = NULL
    · refine iff_of_true ?_ h0
      rw [destroy_twice_eq d σ _ (_destroy_type_null d σ h0), _destroy_type_null d σ h0,
        _destroy_type_null d { σ with log := σ.log ++ [Event.destroy_type d] } h0]
      refine ⟨rfl, rfl, rfl, rfl, rfl, rfl, ?_⟩
      simp [Outcome.state, frees_append, frees, Event.freed]
    · refine iff_of_false ?_ h0
      intro hs
      by_cases h1 : σ.counter (σ.wit d).extra = 0
      · have hf := hs.2.2.2.2.2.2
        rw [hzz h0 h1, _destroy_type_zero d σ h0 h1] at hf
        simp [Outcome.state, frees_append, frees, Event.freed] at hf
      · obtain ⟨c1, _, hlt, _, hrun⟩ := _destroy_type_pos d σ h0 h1
        by_cases hc1 : c1 = 0
        · have hf := hs.2.2.2.2.2.2
          rw [hpz c1 h0 hrun hc1, hrun] at hf
          simp [Outcome.state, frees_append, frees, Event.freed] at hf
        · obtain ⟨evs, hrun2, _⟩ := hpp c1 h0 hrun hc1 hlt
          have hc := congrFun hs.2.2.2.1 (σ.wit d).extra
          rw [hrun2, hrun] at hc
          simp only [Outcome.state, Function.update_same] at hc
          omega
  · intro n h0 h1 h2 hlt
    have hne : σ.counter (σ.wit d).extra ≠ 0 := by omega
    obtain ⟨c1, _, hlt1, hc1, hrun⟩ := _destroy_type_pos d σ h0 hne
    have hc1' : c1 = n - 1 := by rw [hc1 (by omega), h1]
    obtain ⟨evs, hrun2, hfr⟩ := hpp c1 h0 hrun (by omega) hlt1
    rw [hrun2, hrun]
    refine ⟨?_, ?_, ?_⟩
    · simp only [Outcome.state, Function.update_same]; omega
    · simp only [Outcome.state, Function.update_same]; exact hc1'
    · simp only [Outcome.state]
      rw [frees_append, hfr, List.append_nil]
  · intro h0 h1
    have hne : σ.counter (σ.wit d).extra ≠ 0 := by omega
    obtain ⟨c1, _, _, hc1, hrun⟩ := _destroy_type_pos d σ h0 hne
    have hc1' : c1 = 0 := by rw [hc1 (by rw [h1]; decide), h1]
    have := hpz c1 h0 hrun hc1'
    rw [hc1', h1] at this
    exact this
  · intro h0 h1
    exact ⟨hzz h0 h1, by simp [used_after_free, Event.accesses]⟩

/-- Witness of C12: the counter at 5; twice gives 3, once gives 4. -/
theorem destroy_not_idempotent_witness :
    ((state_shared 5).wit 1).extra ≠ NULL ∧
    (state_shared 5).counter ((state_shared 5).wit 1).extra = 5 ∧
    (destroy_twice 1 (state_shared 5)).state.counter ((state_shared 5).wit 1).extra = 5 - 2 ∧
    (_destroy_type 1 (state_shared 5)).state.counter ((state_shared 5).wit 1).extra = 5 - 1 ∧
    frees (destroy_twice 1 (state_shared 5)).state.log = frees (state_shared 5).log :=
  ⟨by decide, by decide,
    (destroy_not_idempotent 1 (state_shared 5)).2.1 5
      (by decide) (by decide) (by decide) (by decide)⟩

/-! ### Exactly-once consumption in `first` -/

/-- The log of `first` with the frontier at `n`: the descriptors are `_3` at
`n + 16`, `_4` at `n + 48`, `_7` at `n + 104`, `_8` at `n + 136`; the value
buffers are `_5` at `n + 88` and `_6` at `n + 96`. -/
theorem first_events_once (n : Nat) :
    destroyed
      [Event.copy_type (n + 104) (n + 16),
       Event.copy_type (n + 136) (n + 48),
       Event.call_destroy (n + 136) Fn2._destroy_F64 (n + 96) NULL,
       Event.destroy_type (n + 136),
       Event.call_move (n + 104) Fn3._move_F64 (n + 80) (n + 88) NULL,
       Event.destroy_type (n + 104),
       Event.destroy_type (n + 48),
       Event.destroy_type (n + 16)] = [n + 136, n + 104, n + 48, n + 16] ∧
    List.filter (Event.consumes (n + 88))
      [Event.copy_type (n + 104) (n + 16),
       Event.copy_type (n + 136) (n + 48),
       Event.call_destroy (n + 136) Fn2._destroy_F64 (n + 96) NULL,
       Event.destroy_type (n + 136),
       Event.call_move (n + 104) Fn3._move_F64 (n + 80) (n + 88) NULL,
       Event.destroy_type (n + 104),
       Event.destroy_type (n + 48),
       Event.destroy_type (n + 16)] =
      [Event.call_move (n + 104) Fn3._move_F64 (n + 80) (n + 88) NULL] ∧
    List.filter (Event.consumes (n + 96))
      [Event.copy_type (n + 104) (n + 16),
       Event.copy_type (n + 136) (n + 48),
       Event.call_destroy (n + 136) Fn2._destroy_F64 (n + 96) NULL,
       Event.destroy_type (n + 136),
       Event.call_move (n + 104) Fn3._move_F64 (n + 80) (n + 88) NULL,
       Event.destroy_type (n + 104),
       Event.destroy_type (n + 48),
       Event.destroy_type (n + 16)] =
      [Event.call_destroy (n + 136) Fn2._destroy_F64 (n + 96) NULL] := by
  simp [destroyed, Event.destroyed, List.filter_cons, Event.consumes]

/-- C13: along the single path of `first()` the descriptors passed to
`_destroy_type` are, in order, `_8` (inside `first_of`), `_7` (inside
`first_of`), `_4`, `_3`, each once (the four addresses are distinct); the
only event that consumes `_5` is the move through `_7`, and the only event
that consumes `_6` is the destroy through `_8`. -/
theorem first_exactly_once (E : Env) (_result : Addr) (σ : State) :
    ∃ σ1 evs, First.first E _result σ = Outcome.ret () σ1 ∧
      σ1.log = σ.log ++ evs ∧
      evs =
        [Event.copy_type (σ.next + 104) (σ.next + 16),
         Event.copy_type (σ.next + 136) (σ.next + 48),
         Event.call_destroy (σ.next + 136) Fn2._destroy_F64 (σ.next + 96) NULL,
         Event.destroy_type (σ.next + 136),
         Event.call_move (σ.next + 104) Fn3._move_F64 (σ.next + 80) (σ.next + 88) NULL,
         Event.destroy_type (σ.next + 104),
         Event.destroy_type (σ.next + 48),
         Event.destroy_type (σ.next + 16)] ∧
      destroyed evs = [σ.next + 136, σ.next + 104, σ.next + 48, σ.next + 16] ∧
      (destroyed evs).Nodup ∧
      evs.filter (Event.consumes (σ.next + 88)) =
        [Event.call_move (σ.next + 104) Fn3._move_F64 (σ.next + 80) (σ.next + 88) NULL] ∧
      evs.filter (Event.consumes (σ.next + 96)) =
        [Event.call_destroy (σ.next + 136) Fn2._destroy_F64 (σ.next + 96) NULL] := by
  rw [First.first_eq]
  have h := first_events_once σ.next
  refine ⟨_, _, rfl, rfl, rfl, h.1, ?_, h.2.1, h.2.2⟩
  rw [h.1]
  have hn : ∀ n : Nat, [n + 136, n + 104, n + 48, n + 16].Nodup := by
    intro n
    simp
  exact hn σ.next

/-! ### The entry points and `literal` -/

theorem literal_file_eq (_result : Addr) (σ : State) :
    Literal.literal _result σ =
      Outcome.ret () { σ with
        bytes := moved8 _result σ.next (stored8 σ.next double_3 σ.bytes),
        next := σ.next + 8 } := by
  simp [Literal.literal, bind_apply, alloca, store_double_eq, memmove8_eq]

theorem two_slot_literal_eq (_result : Addr) (σ : State) :
    ChainedTwoSlot.literal _result σ =
      Outcome.ret () { σ with
        bytes := moved8 _result σ.next (stored8 σ.next double_3 σ.bytes),
        next := σ.next + 8 } := by
  simp [ChainedTwoSlot.literal, bind_apply, alloca, store_double_eq, memmove8_eq]

/-- The whole of `mono_id`, step by step. -/
theorem MonoId.mono_id_eq (_result : Addr) (σ : State) :
    MonoId.mono_id _result σ =
      Outcome.ret () { σ with
        bytes :=
          moved8 _result (σ.next + 8)
            (moved8 (σ.next + 8) (σ.next + 16)
              (moved8 (σ.next + 16) σ.next (stored8 σ.next double_3 σ.bytes))),
        next := σ.next + 24 } := by
  simp [MonoId.mono_id, MonoId.id, bind_apply, alloca, store_double_eq, memmove8_eq,
    Nat.add_assoc]

/-- The whole of `poly_id`, step by step. -/
theorem PolyId.poly_id_eq (E : Env) (_result : Addr) (σ : State) :
    PolyId.poly_id E _result σ =
      Outcome.ret () { σ with
        bytes :=
          moved8 _result (σ.next + 32)
            (moved8 (σ.next + 32) (σ.next + 40)
              (moved8 (σ.next + 40) σ.next (stored8 σ.next double_3 σ.bytes))),
        lwit :=
          Function.update (Function.update σ.lwit (σ.next + 8) F64_lwitness)
            (σ.next + 48) F64_lwitness,
        next := σ.next + 72,
        log := σ.log ++
          [Event.call_move (σ.next + 48) Fn3.move_F64 (σ.next + 32) (σ.next + 40) NULL] } := by
  simp [PolyId.poly_id, PolyId.id, TwoSlot.call_move, bind_apply, alloca, store_double_eq,
    two_slot_F64_eq, memmove8_eq, memmove_lwitness, load_lwitness, emit,
    Function.update_apply, run3, _move_F64_eq, F64_lwitness, Nat.add_assoc]

/-- The whole of the two-slot `chained_poly_id_literal`, step by step. -/
theorem two_slot_chained_eq (E : Env) (_result : Addr) (σ : State) :
    ChainedTwoSlot.chained_poly_id_literal E _result σ =
      Outcome.ret () { σ with
        bytes :=
          moved8 _result (σ.next + 104)
            (moved8 (σ.next + 104) (σ.next + 112)
              (moved8 (σ.next + 112) (σ.next + 40)
                (moved8 (σ.next + 40) (σ.next + 48)
                  (moved8 (σ.next + 48) σ.next
                    (moved8 σ.next (σ.next + 8)
                      (stored8 (σ.next + 8) double_3 σ.bytes)))))),
        lwit :=
          Function.update
            (Function.update
              (Function.update (Function.update σ.lwit (σ.next + 16) F64_lwitness)
                (σ.next + 56) F64_lwitness)
              (σ.next + 80) F64_lwitness)
            (σ.next + 120) F64_lwitness,
        next := σ.next + 144,
        log := σ.log ++
          [Event.call_move (σ.next + 56) Fn3.move_F64 (σ.next + 40) (σ.next + 48) NULL,
           Event.call_move (σ.next + 120) Fn3.move_F64 (σ.next + 104) (σ.next + 112)
             NULL] } := by
  simp [ChainedTwoSlot.chained_poly_id_literal, two_slot_literal_eq, ChainedTwoSlot.id,
    TwoSlot.call_move, bind_apply, alloca, two_slot_F64_eq, memmove8_eq, memmove_lwitness,
    load_lwitness, emit, Function.update_apply, run3, _move_F64_eq, F64_lwitness,
    Nat.add_assoc]

/-- C14: for every value `x`, the move-only `id` with a two-slot `F64` witness
(in `poly_id` and in the two-slot `chained_poly_id_literal`) and the owning
`id` with a four-slot `F64` witness leave the same eight bytes in `result`,
those `x` held; and `mono_id`, `poly_id`, `poly_let` and both variants of
`chained_poly_id_literal` return with the eight bytes `literal()` writes, the
pattern of `3.0`. -/
theorem id_strategies_agree (E : Env) (size : _witness → Nat) (_result x t : Addr)
    (σ : State) :
    (∃ σ1 σ2 σ3,
      (TwoSlot.F64 t >>= fun _ => PolyId.id E _result x t) σ = Outcome.ret () σ1 ∧
      (TwoSlot.F64 t >>= fun _ => ChainedTwoSlot.id E _result x t) σ = Outcome.ret () σ2 ∧
      (F64 t >>= fun _ => ChainedFull.id E _result x t) σ = Outcome.ret () σ3 ∧
      load8 σ1 _result = load8 σ x ∧ load8 σ2 _result = load8 σ x ∧
      load8 σ3 _result = load8 σ x ∧ load8 σ1 _result = load8 σ3 _result) ∧
    (∃ τ τ1 τ2 τ3 τ4 τ5 τ6,
      Literal.literal _result σ = Outcome.ret () τ ∧
      MonoId.mono_id _result σ = Outcome.ret () τ1 ∧
      PolyId.poly_id E _result σ = Outcome.ret () τ2 ∧
      PolyLet.poly_let E size _result σ = Outcome.ret () τ3 ∧
      ChainedTwoSlot.chained_poly_id_literal E _result σ = Outcome.ret () τ4 ∧
      ChainedFull.chained_poly_id_literal E _result σ = Outcome.ret () τ5 ∧
      ChainedTwoSlot.literal _result σ = Outcome.ret () τ6 ∧
      load8 τ _result = bytes_of_double double_3 ∧
      load8 τ1 _result = load8 τ _result ∧ load8 τ2 _result = load8 τ _result ∧
      load8 τ3 _result = load8 τ _result ∧ load8 τ4 _result = load8 τ _result ∧
      load8 τ5 _result = load8 τ _result ∧ load8 τ6 _result = load8 τ _result) := by
  refine ⟨?_, ?_⟩
  · have h2 : ∀ i, i < 8 → moved8 _result x σ.bytes (_result + i) = σ.bytes (x + i) :=
      fun i hi => moved8_at _ _ _ i hi
    obtain ⟨σ3, h3, hb3⟩ := ChainedFull.id_move_F64 E _result x t
      { σ with wit := Function.update σ.wit t F64_witness } (by simp [F64_witness])
    have e3 : load8 σ3 _result = load8 σ x := by
      apply load8_eq_of_bytes
      intro i hi
      rw [hb3]
      exact h2 i hi
    refine ⟨{ σ with
        bytes := moved8 _result x σ.bytes,
        lwit := Function.update σ.lwit t F64_lwitness,
        log := σ.log ++ [Event.call_move t Fn3.move_F64 _result x NULL] },
      { σ with
        bytes := moved8 _result x σ.bytes,
        lwit := Function.update σ.lwit t F64_lwitness,
        log := σ.log ++ [Event.call_move t Fn3.move_F64 _result x NULL] },
      σ3, ?_, ?_, ?_, load8_eq_of_bytes _ _ _ _ h2, load8_eq_of_bytes _ _ _ _ h2, e3,
      (load8_eq_of_bytes _ σ _ x h2).trans e3.symm⟩
    · simp [bind_apply, two_slot_F64_eq, PolyId.id, TwoSlot.call_move, load_lwitness,
        emit, F64_lwitness, run3, _move_F64_eq]
    · simp [bind_apply, two_slot_F64_eq, ChainedTwoSlot.id, TwoSlot.call_move,
        load_lwitness, emit, F64_lwitness, run3, _move_F64_eq]
    · simp only [bind_apply, F64_eq]
      exact h3
  · rw [literal_file_eq, MonoId.mono_id_eq, PolyId.poly_id_eq, PolyLet.poly_let_eq,
      two_slot_chained_eq, ChainedFull.chained_poly_id_literal_eq, two_slot_literal_eq]
    have hL : ∀ i, i < 8 →
        moved8 _result σ.next (stored8 σ.next double_3 σ.bytes) (_result + i) =
          byte_of double_3 i := by
      intro i hi
      rw [moved8_at _ _ _ i hi]
      exact stored8_at _ _ _ i hi
    have eL := load8_eq_bytes_of_double
      { σ with bytes := moved8 _result σ.next (stored8 σ.next double_3 σ.bytes),
               next := σ.next + 8 } _result double_3 hL
    refine ⟨_, _, _, _, _, _, _, rfl, rfl, rfl, rfl, rfl, rfl, rfl, eL, ?_, ?_, ?_, ?_, ?_,
      rfl⟩
    · rw [eL]
      apply load8_eq_bytes_of_double
      intro i hi
      show moved8 _ _ _ _ = _
      rw [moved8_at _ _ _ i hi, moved8_at _ _ _ i hi, moved8_at _ _ _ i hi]
      exact stored8_at _ _ _ i hi
    · rw [eL]
      apply load8_eq_bytes_of_double
      intro i hi
      show moved8 _ _ _ _ = _
      rw [moved8_at _ _ _ i hi, moved8_at _ _ _ i hi, moved8_at _ _ _ i hi]
      exact stored8_at _ _ _ i hi
    · rw [eL]
      apply load8_eq_bytes_of_double
      intro i hi
      show moved8 _ _ _ _ = _
      rw [moved8_at _ _ _ i hi, moved8_at _ _ _ i hi, moved8_at _ _ _ i hi,
        moved8_at _ _ _ i hi]
      exact stored8_at _ _ _ i hi
    · rw [eL]
      apply load8_eq_bytes_of_double
      intro i hi
      show moved8 _ _ _ _ = _
      rw [moved8_at _ _ _ i hi, moved8_at _ _ _ i hi, moved8_at _ _ _ i hi,
        moved8_at _ _ _ i hi, moved8_at _ _ _ i hi, moved8_at _ _ _ i hi]
      exact stored8_at _ _ _ i hi
    · rw [eL]
      apply load8_eq_bytes_of_double
      intro i hi
      show moved8 _ _ _ _ = _
      rw [moved8_at _ _ _ i hi, moved8_at _ _ _ i hi, moved8_at _ _ _ i hi,
        moved8_at _ _ _ i hi, moved8_at _ _ _ i hi, moved8_at _ _ _ i hi]
      exact stored8_at _ _ _ i hi

/-! ### The call-site pattern -/

/-- Function `_destroy_type` on a descriptor whose non-null `extra` is `e`, the
counter at `e` holding `c`. -/
theorem destroy_at (t : Addr) (τ : State) (e c : Nat) (he : (τ.wit t).extra = e)
    (hc : τ.counter e = c) (hne : e ≠ NULL) :
    (c = 0 → _destroy_type t τ =
      Outcome.ret () { τ with
        live := τ.live.erase e,
        log := τ.log ++ [Event.destroy_type t, Event.counter_read e 0, Event.free e] }) ∧
    (0 < c → c < 2 ^ 64 → _destroy_type t τ =
      Outcome.ret () { τ with
        counter := Function.update τ.counter e (c - 1),
        log := τ.log ++ [Event.destroy_type t, Event.counter_read e c,
          Event.counter_write e (c - 1)] }) := by
  subst he
  refine ⟨?_, ?_⟩
  · intro h
    exact _destroy_type_zero t τ hne (by rw [hc, h])
  · intro hpos hlt
    obtain ⟨c1, _, _, hc1, hrun⟩ := _destroy_type_pos t τ hne (by rw [hc]; omega)
    rw [hrun, hc1 (by rw [hc]; exact hlt), hc]

/-- Function `_copy_type` on a descriptor whose non-null `extra` is `e`, the
counter at `e` holding `c` below `ULONG_MAX`. -/
theorem copy_at (E : Env) (d s : Addr) (τ : State) (e c : Nat) (he : (τ.wit s).extra = e)
    (hc : τ.counter e = c) (hne : e ≠ NULL) (hlt : c < E.ULONG_MAX)
    (hU : E.ULONG_MAX < 2 ^ 64) :
    _copy_type E d s τ =
      Outcome.ret () { τ with
        wit := Function.update τ.wit d (τ.wit s),
        counter := Function.update τ.counter e (c + 1),
        log := τ.log ++ [Event.copy_type d s, Event.counter_read e c,
          Event.counter_write e (c + 1)] } := by
  subst he
  have h1 : τ.counter (τ.wit s).extra ≠ E.ULONG_MAX := by omega
  have hm : (τ.counter (τ.wit s).extra + 1) % 2 ^ 64 = c + 1 := by
    rw [hc]; exact Nat.mod_eq_of_lt (by omega)
  rw [_copy_type_eq, if_neg hne, if_neg h1, hm, hc]

theorem update_self_at (f : Addr → _witness) (d s : Addr) :
    Function.update f d (f s) s = f s := by
  by_cases h : s = d
  · subst h; simp
  · simp [Function.update_noteq h]

/-- The owning `id` on a descriptor with a null `extra`: what changes besides
the value bytes. -/
theorem id_null_at (E : Env) (r x t : Addr) (τ : State) (he : (τ.wit t).extra = NULL) :
    ∃ τ1, ChainedFull.id E r x t τ = Outcome.ret () τ1 ∧ τ1.wit = τ.wit ∧
      τ1.counter = τ.counter ∧ τ1.live = τ.live ∧
      τ1.log = τ.log ++
        [Event.call_move t (τ.wit t).move r x NULL, Event.destroy_type t] := by
  rw [ChainedFull.id_eq,
    _destroy_type_null t
      { τ with
        bytes := (run3 E (τ.wit t).move r x (τ.wit t).extra τ).state.bytes,
        log := τ.log ++ [Event.call_move t (τ.wit t).move r x (τ.wit t).extra] } he]
  refine ⟨_, rfl, rfl, rfl, rfl, ?_⟩
  simp [he]

/-- The owning `id` on a descriptor whose non-null `extra` is `e`, the counter
at `e` holding `c > 0`: what changes besides the value bytes. -/
theorem id_release_at (E : Env) (r x t : Addr) (τ : State) (e c : Nat)
    (he : (τ.wit t).extra = e) (hc : τ.counter e = c) (hne : e ≠ NULL)
    (hpos : 0 < c) (hlt : c < 2 ^ 64) :
    ∃ τ1, ChainedFull.id E r x t τ = Outcome.ret () τ1 ∧ τ1.wit = τ.wit ∧
      τ1.counter = Function.update τ.counter e (c - 1) ∧ τ1.live = τ.live ∧
      τ1.log = τ.log ++
        [Event.call_move t (τ.wit t).move r x e, Event.destroy_type t,
         Event.counter_read e c, Event.counter_write e (c - 1)] := by
  rw [ChainedFull.id_eq,
    (destroy_at t
      { τ with
        bytes := (run3 E (τ.wit t).move r x (τ.wit t).extra τ).state.bytes,
        log := τ.log ++ [Event.call_move t (τ.wit t).move r x (τ.wit t).extra] }
      e c he hc hne).2 hpos hlt]
  refine ⟨_, rfl, rfl, rfl, rfl, ?_⟩
  simp [he]

/-- C15: on a target whose `ULONG_MAX` is `2^64 - 1`, for a descriptor `s`
whose counter holds `c < 2^64 - 1`, the pattern
`_copy_type(d, s); id(r, x, d); _destroy_type(s)` returns and leaves the
counters, the live blocks and the sequence of frees exactly as a single
`_destroy_type(s)` does: with a null `extra` nothing changes; with `c > 0` the
counter ends at `c - 1` and nothing is freed; with `c = 0` the payload is
freed once, by the last three steps (those of the final `_destroy_type(s)`),
and no step after the `free` touches it. -/
theorem call_site_net_effect (E : Env) (d s r x : Addr) (σ : State)
    (hU : E.ULONG_MAX = 2 ^ 64 - 1) (hc : σ.counter (σ.wit s).extra < 2 ^ 64 - 1) :
    ∃ σ1 σ2 evs evs2,
      call_site E d s r x σ = Outcome.ret () σ1 ∧
      _destroy_type s σ = Outcome.ret () σ2 ∧
      σ1.log = σ.log ++ evs ∧ σ2.log = σ.log ++ evs2 ∧
      σ1.counter = σ2.counter ∧ σ1.live = σ2.live ∧ frees evs = frees evs2 ∧
      used_after_free (σ.wit s).extra evs = false ∧
      ((σ.wit s).extra = NULL →
        σ1.counter = σ.counter ∧ σ1.live = σ.live ∧ frees evs = []) ∧
      ((σ.wit s).extra ≠ NULL → 0 < σ.counter (σ.wit s).extra →
        σ1.counter (σ.wit s).extra = σ.counter (σ.wit s).extra - 1 ∧
        σ1.live = σ.live ∧ frees evs = []) ∧
      ((σ.wit s).extra ≠ NULL → σ.counter (σ.wit s).extra = 0 →
        σ1.live = σ.live.erase (σ.wit s).extra ∧ frees evs = [(σ.wit s).extra] ∧
        ∃ pre, evs = pre ++ [Event.destroy_type s,
            Event.counter_read (σ.wit s).extra 0, Event.free (σ.wit s).extra] ∧
          frees pre = []) := by
  have hUlt : E.ULONG_MAX < 2 ^ 64 := by omega
  by_cases h0 : (σ.wit s).extra = NULL
  · -- null payload
    have hcopy : _copy_type E d s σ = Outcome.ret ()
        { σ with wit := Function.update σ.wit d (σ.wit s),
                 log := σ.log ++ [Event.copy_type d s] } := by
      rw [_copy_type_eq, if_pos h0]
    obtain ⟨τ1, hid, hw1, hc1, hl1, hlog1⟩ := id_null_at E r x d
      { σ with wit := Function.update σ.wit d (σ.wit s),
               log := σ.log ++ [Event.copy_type d s] }
      (by simp [h0])
    have hs1 : (τ1.wit s).extra = NULL := by rw [hw1]; simp [update_self_at, h0]
    refine ⟨{ τ1 with log := τ1.log ++ [Event.destroy_type s] },
      { σ with log := σ.log ++ [Event.destroy_type s] },
      [Event.copy_type d s,
       Event.call_move d (Function.update σ.wit d (σ.wit s) d).move r x NULL,
       Event.destroy_type d, Event.destroy_type s],
      [Event.destroy_type s], ?_, _destroy_type_null s σ h0, ?_, rfl, hc1, hl1, ?_, ?_,
      ?_, ?_, ?_⟩
    · simp only [call_site, bind_apply, hcopy, hid]
      exact _destroy_type_null s τ1 hs1
    · simp [hlog1]
    · simp [frees, Event.freed]
    · simp [used_after_free, Event.accesses]
    · intro _
      exact ⟨hc1, hl1, by simp [frees, Event.freed]⟩
    · intro h; exact absurd h0 h
    · intro h; exact absurd h0 h
  · -- shared payload
    have hcopy := copy_at E d s σ (σ.wit s).extra (σ.counter (σ.wit s).extra) rfl rfl h0
      (by omega) hUlt
    obtain ⟨τ1, hid, hw1, hc1, hl1, hlog1⟩ := id_release_at E r x d
      { σ with
        wit := Function.update σ.wit d (σ.wit s),
        counter := Function.update σ.counter (σ.wit s).extra
          (σ.counter (σ.wit s).extra + 1),
        log := σ.log ++ [Event.copy_type d s,
          Event.counter_read (σ.wit s).extra (σ.counter (σ.wit s).extra),
          Event.counter_write (σ.wit s).extra (σ.counter (σ.wit s).extra + 1)] }
      (σ.wit s).extra (σ.counter (σ.wit s).extra + 1)
      (by simp) (by simp) h0 (by omega) (by omega)
    have hs1 : (τ1.wit s).extra = (σ.wit s).extra := by rw [hw1]; simp [update_self_at]
    have hcs1 : τ1.counter (σ.wit s).extra = σ.counter (σ.wit s).extra := by
      rw [hc1]; simp
    have hcf : τ1.counter = σ.counter := by
      rw [hc1]
      simp only [Nat.add_sub_cancel, Function.update_idem, Function.update_eq_self]
    by_cases hz : σ.counter (σ.wit s).extra = 0
    · have hd1 := (destroy_at s τ1 (σ.wit s).extra (σ.counter (σ.wit s).extra) hs1 hcs1 h0).1 hz
      refine ⟨{ τ1 with
          live := τ1.live.erase (σ.wit s).extra,
          log := τ1.log ++ [Event.destroy_type s, Event.counter_read (σ.wit s).extra 0,
            Event.free (σ.wit s).extra] },
        { σ with
          live := σ.live.erase (σ.wit s).extra,
          log := σ.log ++ [Event.destroy_type s, Event.counter_read (σ.wit s).extra 0,
            Event.free (σ.wit s).extra] },
        [Event.copy_type d s,
          Event.counter_read (σ.wit s).extra (σ.counter (σ.wit s).extra),
          Event.counter_write (σ.wit s).extra (σ.counter (σ.wit s).extra + 1),
          Event.call_move d (Function.update σ.wit d (σ.wit s) d).move r x (σ.wit s).extra,
          Event.destroy_type d,
          Event.counter_read (σ.wit s).extra (σ.counter (σ.wit s).extra + 1),
          Event.counter_write (σ.wit s).extra (σ.counter (σ.wit s).extra + 1 - 1),
          Event.destroy_type s, Event.counter_read (σ.wit s).extra 0,
          Event.free (σ.wit s).extra],
        [Event.destroy_type s, Event.counter_read (σ.wit s).extra 0,
          Event.free (σ.wit s).extra],
        ?_, _destroy_type_zero s σ h0 hz, ?_, rfl, hcf, ?_, ?_, ?_, ?_, ?_, ?_⟩
      · simp only [call_site, bind_apply, hcopy, hid]
        exact hd1
      · simp only [hlog1, List.append_assoc]
        rfl
      · simp only [hl1]
      · simp [frees, Event.freed]
      · simp [used_after_free, Event.accesses]
      · intro h; exact absurd h h0
      · intro _ hpos; omega
      · intro _ _
        refine ⟨by simp only [hl1], by simp [frees, Event.freed], ?_⟩
        refine ⟨[Event.copy_type d s,
          Event.counter_read (σ.wit s).extra (σ.counter (σ.wit s).extra),
          Event.counter_write (σ.wit s).extra (σ.counter (σ.wit s).extra + 1),
          Event.call_move d (Function.update σ.wit d (σ.wit s) d).move r x (σ.wit s).extra,
          Event.destroy_type d,
          Event.counter_read (σ.wit s).extra (σ.counter (σ.wit s).extra + 1),
          Event.counter_write (σ.wit s).extra (σ.counter (σ.wit s).extra + 1 - 1)], ?_, ?_⟩
        · simp
        · simp [frees, Event.freed]
    · have hpos : 0 < σ.counter (σ.wit s).extra := Nat.pos_of_ne_zero hz
      have hd1 := (destroy_at s τ1 (σ.wit s).extra (σ.counter (σ.wit s).extra) hs1 hcs1 h0).2
        hpos (by omega)
      have hd2 := (destroy_at s σ (σ.wit s).extra (σ.counter (σ.wit s).extra) rfl rfl h0).2
        hpos (by omega)
      refine ⟨{ τ1 with
          counter := Function.update τ1.counter (σ.wit s).extra
            (σ.counter (σ.wit s).extra - 1),
          log := τ1.log ++ [Event.destroy_type s,
            Event.counter_read (σ.wit s).extra (σ.counter (σ.wit s).extra),
            Event.counter_write (σ.wit s).extra (σ.counter (σ.wit s).extra - 1)] },
        { σ with
          counter := Function.update σ.counter (σ.wit s).extra
            (σ.counter (σ.wit s).extra - 1),
          log := σ.log ++ [Event.destroy_type s,
            Event.counter_read (σ.wit s).extra (σ.counter (σ.wit s).extra),
            Event.counter_write (σ.wit s).extra (σ.counter (σ.wit s).extra - 1)] },
        [Event.copy_type d s,
          Event.counter_read (σ.wit s).extra (σ.counter (σ.wit s).extra),
          Event.counter_write (σ.wit s).extra (σ.counter (σ.wit s).extra + 1),
          Event.call_move d (Function.update σ.wit d (σ.wit s) d).move r x (σ.wit s).extra,
          Event.destroy_type d,
          Event.counter_read (σ.wit s).extra (σ.counter (σ.wit s).extra + 1),
          Event.counter_write (σ.wit s).extra (σ.counter (σ.wit s).extra + 1 - 1),
          Event.destroy_type s,
          Event.counter_read (σ.wit s).extra (σ.counter (σ.wit s).extra),
          Event.counter_write (σ.wit s).extra (σ.counter (σ.wit s).extra - 1)],
        [Event.destroy_type s,
          Event.counter_read (σ.wit s).extra (σ.counter (σ.wit s).extra),
          Event.counter_write (σ.wit s).extra (σ.counter (σ.wit s).extra - 1)],
        ?_, hd2, ?_, rfl, ?_, hl1, ?_, ?_, ?_, ?_, ?_⟩
      · simp only [call_site, bind_apply, hcopy, hid]
        exact hd1
      · simp only [hlog1, List.append_assoc]
        rfl
      · simp only [hcf]
      · simp [frees, Event.freed]
      · simp [used_after_free, Event.accesses]
      · intro h; exact absurd h h0
      · intro _ _
        exact ⟨by simp, hl1, by simp [frees, Event.freed]⟩
      · intro _ h; exact absurd h hz

/-- Witness of C15: the pattern on the sole owner of the payload at 7. -/
theorem call_site_net_effect_witness :
    env_lp64.ULONG_MAX = 2 ^ 64 - 1 ∧
    (state_shared 0).counter ((state_shared 0).wit 1).extra < 2 ^ 64 - 1 ∧
    ∃ σ1 σ2, call_site env_lp64 2 1 40 48 (state_shared 0) = Outcome.ret () σ1 ∧
      _destroy_type 1 (state_shared 0) = Outcome.ret () σ2 ∧
      σ1.counter = σ2.counter ∧ σ1.live = σ2.live :=
  ⟨rfl, by decide,
    match call_site_net_effect env_lp64 2 1 40 48 (state_shared 0) rfl (by decide) with
    | ⟨σ1, σ2, _, _, h1, h2, _, _, h3, h4, _⟩ => ⟨σ1, σ2, h1, h2, h3, h4⟩⟩

/-! ### The discarded operand of `first_of` -/

/-- C16: with descriptors built by `F64` for `a` and `b`, the bytes
`first_of(result, x, y, a, b)` leaves in `result` are those `x` held, whatever
`y` points to and whatever it holds: two runs on any `y1`, `y2`, from states
that agree on the eight bytes of `x`, leave the same bytes in `result`; from
the same state they leave every byte the same; and the call of `b.destroy`
(`_destroy_F64`) changes no byte at all. -/
theorem first_of_ignores_y (E : Env) (_result x y1 y2 a b : Addr) (σ τ : State)
    (ha : σ.wit a = F64_witness) (hb : σ.wit b = F64_witness)
    (ha2 : τ.wit a = F64_witness) (hb2 : τ.wit b = F64_witness)
    (hx : load8 σ x = load8 τ x) :
    (∃ σ1 τ1, First.first_of E _result x y1 a b σ = Outcome.ret () σ1 ∧
      First.first_of E _result x y2 a b τ = Outcome.ret () τ1 ∧
      load8 σ1 _result = load8 τ1 _result ∧ load8 σ1 _result = load8 σ x) ∧
    (∃ σ1 σ2, First.first_of E _result x y1 a b σ = Outcome.ret () σ1 ∧
      First.first_of E _result x y2 a b σ = Outcome.ret () σ2 ∧
      σ1.bytes = σ2.bytes) ∧
    (∃ σ1, call_destroy E b y1 σ = Outcome.ret () σ1 ∧ σ1.bytes = σ.bytes) := by
  have hrun : ∀ (y : Addr) (ρ : State), ρ.wit a = F64_witness → ρ.wit b = F64_witness →
      First.first_of E _result x y a b ρ =
        Outcome.ret () { ρ with
          bytes := moved8 _result x ρ.bytes,
          log := ρ.log ++
            [Event.call_destroy b Fn2._destroy_F64 y NULL, Event.destroy_type b,
             Event.call_move a Fn3._move_F64 _result x NULL, Event.destroy_type a] } := by
    intro y ρ h1 h2
    simp [First.first_of, bind_apply, call_destroy, call_move, load_witness, emit, h1, h2,
      run2, run3, _move_F64_eq, _destroy_F64, pure_apply, _destroy_type_F64, F64_witness]
  have hres : ∀ ρ : State, ∀ i, i < 8 →
      moved8 _result x ρ.bytes (_result + i) = ρ.bytes (x + i) :=
    fun ρ i hi => moved8_at _ _ _ i hi
  refine ⟨?_, ?_, ?_⟩
  · rw [hrun y1 σ ha hb, hrun y2 τ ha2 hb2]
    refine ⟨_, _, rfl, rfl, ?_, load8_eq_of_bytes _ σ _ x (hres σ)⟩
    exact (load8_eq_of_bytes _ σ _ x (hres σ)).trans
      (hx.trans (load8_eq_of_bytes _ τ _ x (hres τ)).symm)
  · rw [hrun y1 σ ha hb, hrun y2 σ ha hb]
    exact ⟨_, _, rfl, rfl, rfl⟩
  · refine ⟨{ σ with log := σ.log ++ [Event.call_destroy b Fn2._destroy_F64 y1 NULL] },
      ?_, rfl⟩
    simp [call_destroy, bind_apply, load_witness, emit, hb, run2, _destroy_F64, pure_apply,
      F64_witness]

/-- Witness of C16: two runs from the same state with different `y`. -/
theorem first_of_ignores_y_witness :
    state_F64.wit 1 = F64_witness ∧ state_F64.wit 2 = F64_witness ∧
    load8 state_F64 48 = load8 state_F64 48 ∧
    ∃ σ1 τ1, First.first_of env_lp64 40 48 56 1 2 state_F64 = Outcome.ret () σ1 ∧
      First.first_of env_lp64 40 48 64 1 2 state_F64 = Outcome.ret () τ1 ∧
      load8 σ1 40 = load8 τ1 40 ∧ load8 σ1 40 = load8 state_F64 48 :=
  ⟨rfl, rfl, rfl,
    (first_of_ignores_y env_lp64 40 48 56 64 1 2 state_F64 state_F64 rfl rfl rfl rfl rfl).1⟩

/-! ### `_move_F64` -/

/-- C17: `_move_F64(dest, src, extra)` always returns; afterwards the eight
bytes at `dest` are the eight bytes `src` held before the call (no
assumption on how the two regions lie, so also when they overlap), every byte
outside `dest[0..8)` is as before, nothing but value bytes changes, and
`extra` plays no part; `F64` stores this function in the `copy` slot too, and
a call through that slot leaves a `src` that does not overlap `dest`
unchanged. -/
theorem move_F64_frame (E : Env) (dest src extra : Addr) (σ : State) :
    (∃ σ1, _move_F64 dest src extra σ = Outcome.ret () σ1 ∧
      (∀ i, i < 8 → σ1.bytes (dest + i) = σ.bytes (src + i)) ∧
      (∀ a, a < dest ∨ dest + 8 ≤ a → σ1.bytes a = σ.bytes a) ∧
      σ1.wit = σ.wit ∧ σ1.lwit = σ.lwit ∧ σ1.counter = σ.counter ∧
      σ1.live = σ.live ∧ σ1.next = σ.next ∧ σ1.log = σ.log) ∧
    (∀ extra2, _move_F64 dest src extra2 σ = _move_F64 dest src extra σ) ∧
    (∀ t, ∃ σ0, F64 t σ = Outcome.ret () σ0 ∧ (σ0.wit t).move = Fn3._move_F64 ∧
      (σ0.wit t).copy = Fn3._move_F64) ∧
    (∀ t, σ.wit t = F64_witness → src + 8 ≤ dest ∨ dest + 8 ≤ src →
      ∃ σ1, call_copy E t dest src σ = Outcome.ret () σ1 ∧
        load8 σ1 src = load8 σ src ∧ load8 σ1 dest = load8 σ src) := by
  refine ⟨?_, fun _ => rfl, ?_, ?_⟩
  · rw [_move_F64_eq]
    exact ⟨_, rfl, fun i hi => moved8_at _ _ _ i hi,
      fun a ha => moved8_outside _ _ _ a ha, rfl, rfl, rfl, rfl, rfl, rfl⟩
  · intro t
    rw [F64_eq]
    exact ⟨_, rfl, by simp [F64_witness], by simp [F64_witness]⟩
  · intro t ht hdis
    refine ⟨{ σ with
        bytes := moved8 dest src σ.bytes,
        log := σ.log ++ [Event.call_copy t Fn3._move_F64 dest src NULL] }, ?_, ?_, ?_⟩
    · simp [call_copy, bind_apply, load_witness, emit, ht, run3, _move_F64_eq, F64_witness]
    · apply load8_eq_of_bytes
      intro i hi
      have hout : src + i < dest ∨ dest + 8 ≤ src + i :=
        (show ∀ s d j : Nat, j < 8 → s + 8 ≤ d ∨ d + 8 ≤ s → s + j < d ∨ d + 8 ≤ s + j by
          omega) src dest i hi hdis
      exact moved8_outside _ _ _ _ hout
    · exact load8_eq_of_bytes _ _ _ _ fun i hi => moved8_at _ _ _ i hi

/-- Witness of C17: a copy through the slot `F64` fills, from 48 to 40. -/
theorem move_F64_frame_witness :
    state_F64.wit 1 = F64_witness ∧ ((48 : Addr) + 8 ≤ 40 ∨ (40 : Addr) + 8 ≤ 48) ∧
    ∃ σ1, call_copy env_lp64 1 40 48 state_F64 = Outcome.ret () σ1 ∧
      load8 σ1 48 = load8 state_F64 48 ∧ load8 σ1 40 = load8 state_F64 48 :=
  ⟨rfl, by decide,
    (move_F64_frame env_lp64 40 48 0 state_F64).2.2.2 1 rfl (by decide)⟩

end Hoyle
